import Mathlib

/-!
Verification of the palkia entity-component-message runtime core.

This file shallowly embeds the data model and operations of the repository:

* `EntityAllocator` — the generational slot allocator of `src/entities.rs`
  (the in-tree reimplementation of `generational_arena`, used as the model of
  the arena that backs `EntityStorage.allocator` in `src/world/storage.rs`).
* `EntityAssoc` / the builder component tracker — ordered per-entity component
  collections (`src/world/storage.rs`, `src/builder.rs`).
* `EntityStorage` — allocator plus assoc map (`src/world/storage.rs`).
* `ResourceMap` — the per-type singleton store with per-entry read/write locks
  (`src/world/storage.rs`, error kinds from `src/resource/storage.rs`).
* the message dispatch engine `dispatch_even_innerer` with its component walk,
  cancellation flag, queued-message drain and lock discipline
  (`src/world/mod.rs`, `src/messages.rs`, `loop_panic` in `src/lib.rs`).
* the lazy update queue and `World::finalize` (`src/world/mod.rs`).

Rust panics are modelled as `Except` errors; machine integers are `Nat`
(no arithmetic here comes near overflow and none of the source code relies
on wrapping).  Type-erased components and messages are modelled as values
tagged with a runtime type identity (`Tid`, mirroring `TypeIdWrapper`:
lookups compare only the numeric identity, the type name rides along for
panic messages).  Handler closures are modelled by a message transform
plus a list of world-access actions (cancel, queue dispatch, synchronous
dispatch); in-place component mutation by write handlers is not observed
by any theorem in this file and is not modelled.  Lifecycle callbacks can
only touch resources in the source (`CallbackWorldAccess` exposes no
structural mutation and no enqueueing), so they are modelled by trace
events.
-/

namespace Palkia

/-- Mirror of `TypeIdWrapper` (`src/lib.rs`): a runtime type identity plus the
type name.  Equality/ordering in the source compare only the `TypeId`, so all
map lookups below compare only `idNum`. -/
structure Tid where
  idNum : Nat
  typeName : String
deriving DecidableEq, Repr

/-- Mirror of `Entity` (`src/entities.rs`): an index into the slot table and a
generation disambiguating reused slots. -/
structure Entity where
  index : Nat
  generation : Nat
deriving DecidableEq, Repr

/-- A type-erased component value: its type identity plus opaque data. -/
structure CompVal where
  tid : Tid
  data : Nat
deriving DecidableEq, Repr

/-- A type-erased message value: its type identity plus opaque data
(mirrors `Box<dyn Message>`; handlers may change the data, never the type). -/
structure Msg where
  tid : Tid
  data : Nat
deriving DecidableEq, Repr

/-- Mirror of `Entry<T>` (`src/entities.rs`). -/
inductive Entry (T : Type) where
  | free (nextFree : Option Nat)
  | occupied (generation : Nat) (value : T)
deriving DecidableEq, Repr

/-- Mirror of `EntityAllocator<T>` (`src/entities.rs`): a slot table with an
embedded free list and a single generation counter. -/
structure EntityAllocator (T : Type) where
  items : List (Entry T)
  generation : Nat
  freeListHead : Option Nat
  len : Nat
deriving Repr

namespace EntityAllocator

variable {T : Type}

/-- Mirror of `EntityAllocator::get`: the stored generation must match the
handle's generation exactly. -/
def get (a : EntityAllocator T) (e : Entity) : Option T :=
  match a.items[e.index]? with
  | some (.occupied g v) => if g = e.generation then some v else none
  | _ => none

/-- Mirror of `EntityAllocator::remove`: frees the slot onto the free list and
bumps the generation counter; returns `none` (leaving the allocator unchanged)
if the handle's generation does not match. -/
def remove (a : EntityAllocator T) (e : Entity) :
    Option T × EntityAllocator T :=
  if e.index ≥ a.items.length then (none, a)
  else
    match a.items[e.index]? with
    | some (.occupied g v) =>
        if e.generation = g then
          (some v,
            { a with
              items := a.items.set e.index (.free a.freeListHead)
              freeListHead := some e.index
              generation := a.generation + 1
              len := a.len - 1 })
        else (none, a)
    | _ => (none, a)

/-- Mirror of `EntityAllocator::try_alloc_next_index`: pops the head of the
free list.  The source panics on a corrupt free list (head pointing at an
occupied or out-of-range slot); that panic is an `Except.error` here. -/
def tryAllocNextIndex (a : EntityAllocator T) :
    Except String (Option (Entity × EntityAllocator T)) :=
  match a.freeListHead with
  | none => .ok none
  | some i =>
    match a.items[i]? with
    | some (.occupied _ _) => .error "corrupt free list"
    | some (.free nextFree) =>
        .ok (some
          ({ index := i, generation := a.generation },
           { a with freeListHead := nextFree, len := a.len + 1 }))
    | none => .error "corrupt free list"

/-- Mirror of `EntityAllocator::try_insert`: allocates the next free slot and
stores the value with the current generation.  `Ok none` models `Err(value)`
(no free slot). -/
def tryInsert (a : EntityAllocator T) (v : T) :
    Except String (Option (Entity × EntityAllocator T)) :=
  match a.tryAllocNextIndex with
  | .error s => .error s
  | .ok none => .ok none
  | .ok (some (e, a')) =>
      .ok (some (e, { a' with items := a'.items.set e.index (.occupied a'.generation v) }))

/-- Mirror of `EntityAllocator::reserve`: appends `additional` fresh free
slots, each pointing at the next, the last pointing at the old head, and
points the head at the first new slot. -/
def reserve (a : EntityAllocator T) (additional : Nat) : EntityAllocator T :=
  let start := a.items.length
  let stop := start + additional
  let newEntries := (List.range' start additional).map
    (fun i => if i = stop - 1 then Entry.free a.freeListHead
              else Entry.free (some (i + 1)))
  { a with items := a.items ++ newEntries, freeListHead := some start }

/-- Mirror of `EntityAllocator::insert`: try, and on a full table reserve
`len` more slots (doubling) and retry. -/
def insert (a : EntityAllocator T) (v : T) :
    Except String (Entity × EntityAllocator T) :=
  match a.tryInsert v with
  | .error s => .error s
  | .ok (some r) => .ok r
  | .ok none =>
    match (a.reserve a.len).tryInsert v with
    | .error s => .error s
    | .ok (some r) => .ok r
    | .ok none => .error "just did an allocation"

/-- Mirror of `EntityAllocator::insert_increasing`: appends a fresh occupied
slot at the end of the table, never touching the free list. -/
def insertIncreasing (a : EntityAllocator T) (v : T) :
    Entity × EntityAllocator T :=
  ({ index := a.items.length, generation := a.generation },
   { a with items := a.items ++ [.occupied a.generation v], len := a.len + 1 })

/-- Mirror of `EntityAllocator::with_capacity` (via `new`): an empty table
with `max capacity 1` reserved free slots and generation `0`. -/
def withCapacity (capacity : Nat) : EntityAllocator T :=
  EntityAllocator.reserve
    { items := [], generation := 0, freeListHead := none, len := 0 }
    (max capacity 1)

/-- Mirror of `EntityAllocator::new` (default capacity 4). -/
def new : EntityAllocator T := withCapacity 4

end EntityAllocator

/-- Mirror of `EntityLiveness`.  `reservedOnly` is the source's
`PartiallySpawned` (slot reserved in the allocator, no component data yet). -/
inductive EntityLiveness where
  | alive
  | reservedOnly
  | dead
deriving DecidableEq, Repr

/-- Insertion into an `IndexMap` keyed by type identity
(`indexmap::IndexMap::insert`): an existing key keeps its position and gets
its value replaced; a new key is appended at the end. -/
def indexMapInsert (m : List (Tid × Nat)) (k : Tid) (v : Nat) :
    List (Tid × Nat) :=
  if m.any (fun p => p.1.idNum = k.idNum) then
    m.map (fun p => if p.1.idNum = k.idNum then (p.1, v) else p)
  else m ++ [(k, v)]

/-- Mirror of `EntityAssoc` (`src/world/storage.rs`): an insertion-ordered map
from component type identity to the (type-erased) component. -/
structure EntityAssoc where
  components : List (Tid × Nat)
deriving DecidableEq, Repr

namespace EntityAssoc

/-- Mirror of `EntityAssoc::new`: collect `(type id, component)` pairs into
the `IndexMap`. -/
def new (comps : List CompVal) : EntityAssoc :=
  ⟨comps.foldl (fun m c => indexMapInsert m c.tid c.data) []⟩

/-- Mirror of `EntityAssoc::empty`. -/
def empty : EntityAssoc := ⟨[]⟩

/-- Mirror of `EntityAssoc::len`. -/
def len (a : EntityAssoc) : Nat := a.components.length

/-- Lookup by type identity (comparing only the numeric id, as the source
compares `TypeId`s). -/
def lookup (a : EntityAssoc) (t : Tid) : Option Nat :=
  (a.components.find? (fun p => p.1.idNum = t.idNum)).map Prod.snd

end EntityAssoc

/-- Mirror of `EntityBuilderComponentTracker::insert_raw`
(`src/builder.rs`): a component whose type is already tracked replaces the
earlier one in place (keeping the earlier position); otherwise it is pushed
at the end. -/
def trackerInsertRaw (components : List CompVal) (c : CompVal) :
    List CompVal :=
  if components.any (fun p => p.tid.idNum = c.tid.idNum) then
    components.map (fun p => if p.tid.idNum = c.tid.idNum then c else p)
  else components ++ [c]

/-- The component list a builder holds after `with`/`insert`-ing the declared
components in order (`EntityBuilderComponentTracker`, starting empty). -/
def buildTracker (declared : List CompVal) : List CompVal :=
  declared.foldl trackerInsertRaw []

/-- Mirror of `EntityStorage` (`src/world/storage.rs`): the arena allocator
(whose in-tree model is `EntityAllocator`, see `src/entities.rs`) plus the map
from entity to its component collection. -/
structure EntityStorage where
  allocator : EntityAllocator Unit
  assocs : List (Entity × EntityAssoc)
deriving Repr

namespace EntityStorage

/-- Assoc-map lookup (`AHashMap::get`). -/
def findAssoc (st : EntityStorage) (e : Entity) : Option EntityAssoc :=
  (st.assocs.find? (fun p => p.1 = e)).map Prod.snd

/-- Mirror of `EntityStorage::spawn_unfinished`: reserve a slot in the
allocator with no data; the allocation itself may only fail on the source's
internal free-list panics. -/
def spawnUnfinished (st : EntityStorage) :
    Except String (Entity × EntityStorage) :=
  match st.allocator.insert () with
  | .error s => .error s
  | .ok (e, alloc') => .ok (e, { st with allocator := alloc' })

/-- Mirror of `EntityStorage::finish_spawn`: panics (modelled as an error) if
the entity already has component data. -/
def finishSpawn (st : EntityStorage) (target : Entity) (assoc : EntityAssoc) :
    Except String EntityStorage :=
  match st.findAssoc target with
  | some _ => .error "tried to finish spawning an entity that was already alive"
  | none => .ok { st with assocs := st.assocs ++ [(target, assoc)] }

/-- Mirror of `EntityStorage::despawn`: panics (modelled as an error) if the
entity is not in the allocator or was never populated; otherwise removes both
and returns the removed component collection. -/
def despawn (st : EntityStorage) (target : Entity) :
    Except String (EntityAssoc × EntityStorage) :=
  match st.allocator.remove target with
  | (none, _) => .error "tried to despawn an entity that was not in the allocator"
  | (some _, alloc') =>
    match st.findAssoc target with
    | none => .error "tried to despawn an entity that was not finished."
    | some assoc =>
        .ok (assoc,
          { allocator := alloc',
            assocs := st.assocs.filter (fun p => p.1 ≠ target) })

/-- Mirror of `EntityStorage::liveness`: classified by assoc-map membership
and allocator membership; the impossible `(true, false)` combination panics in
the source and is an error here. -/
def liveness (st : EntityStorage) (e : Entity) :
    Except String EntityLiveness :=
  match (st.findAssoc e).isSome, (st.allocator.get e).isSome with
  | true, true => .ok .alive
  | false, true => .ok .reservedOnly
  | false, false => .ok .dead
  | true, false => .error "was in the assocs but not the allocator somehow"

/-- Mirror of `EntityStorage::len`. -/
def lenStorage (st : EntityStorage) : Nat := st.assocs.length

end EntityStorage

/-- Mirror of `ResourceLookupErrorKind` (`src/resource/storage.rs`). -/
inductive ResourceLookupErrorKind where
  | notFound
  | locked
  | poisoned
deriving DecidableEq, Repr

/-- Mirror of `ResourceLookupError` (`src/resource/storage.rs`). -/
structure ResourceLookupError where
  tid : Tid
  kind : ResourceLookupErrorKind
deriving DecidableEq, Repr

/-- State of one resource's `RwLock<Box<dyn Resource>>`: poison flag,
outstanding read guards, outstanding write guard, and the stored value. -/
structure ResourceEntry where
  poisoned : Bool
  readers : Nat
  writer : Bool
  data : Nat
deriving DecidableEq, Repr

/-- Mirror of `ResourceMap` (`src/world/storage.rs`): a map from type
identity to an independently locked singleton value. -/
structure ResourceMap where
  map : List (Tid × ResourceEntry)
deriving DecidableEq, Repr

namespace ResourceMap

def findEntry (rm : ResourceMap) (t : Tid) : Option ResourceEntry :=
  (rm.map.find? (fun p => p.1.idNum = t.idNum)).map Prod.snd

/-- Mirror of `ResourceMap::read` for the resource type with identity `t`:
`NotFound` when the type was never inserted; then `RwLock::try_read`, whose
`WouldBlock` (a write guard outstanding) becomes `Locked` and whose poison
error becomes `Poisoned`; on success the read guard exposes the value. -/
def read (rm : ResourceMap) (t : Tid) : Except ResourceLookupError Nat :=
  match rm.findEntry t with
  | none => .error ⟨t, .notFound⟩
  | some entry =>
    if entry.writer then .error ⟨t, .locked⟩
    else if entry.poisoned then .error ⟨t, .poisoned⟩
    else .ok entry.data

/-- Mirror of `ResourceMap::write` for the resource type with identity `t`:
`NotFound` when the type was never inserted; then `RwLock::try_write`, whose
`WouldBlock` (any guard outstanding) becomes `Locked` and whose poison error
becomes `Poisoned`. -/
def write (rm : ResourceMap) (t : Tid) : Except ResourceLookupError Nat :=
  match rm.findEntry t with
  | none => .error ⟨t, .notFound⟩
  | some entry =>
    if entry.writer ∨ 0 < entry.readers then .error ⟨t, .locked⟩
    else if entry.poisoned then .error ⟨t, .poisoned⟩
    else .ok entry.data

/-- Mirror of `ResourceMap::contains`. -/
def contains (rm : ResourceMap) (t : Tid) : Bool :=
  (rm.findEntry t).isSome

/-- Mirror of `ResourceMap::insert` (fresh unlocked, unpoisoned lock around
the new value; returns the old value if the type was present). -/
def insert (rm : ResourceMap) (t : Tid) (v : Nat) :
    Option Nat × ResourceMap :=
  let old := (rm.findEntry t).map ResourceEntry.data
  let entry : ResourceEntry := ⟨false, 0, false, v⟩
  if (rm.findEntry t).isSome then
    (old, ⟨rm.map.map (fun p => if p.1.idNum = t.idNum then (p.1, entry) else p)⟩)
  else (old, ⟨rm.map ++ [(t, entry)]⟩)

end ResourceMap

/-- Lock mode a message handler declares (`MsgHandlerInner::Read` /
`MsgHandlerInner::Write`). -/
inductive LockMode where
  | read
  | write
deriving DecidableEq, Repr

/-- World-access operations a handler body may perform through its
`ListenerWorldAccess` while it runs.  (Handlers can also spawn/despawn
lazily; no claim in scope observes those, so they are omitted.) -/
inductive HAction where
  | cancelAct
  | setCancellationAct (b : Bool)
  | queueDispatchAct (target : Entity) (m : Msg)
  | dispatchSyncAct (target : Entity) (m : Msg)
deriving DecidableEq, Repr

/-- Model of one registered message handler: its lock mode, the world-access
actions its body performs, and its message transform
`(component data, message data) ↦ new message data`. -/
structure Handler where
  mode : LockMode
  acts : List HAction
  fMsg : Nat → Nat → Nat

/-- Mirror of `ComponentVtable` (`src/vtablesathome.rs` as used by
`src/world/mod.rs`): the message table keyed by message type identity, and
whether lifecycle callbacks are registered.  Callbacks can only read the
world and touch resources (`CallbackWorldAccess`), so they are modelled by
the trace events they leave. -/
structure ComponentVtable where
  msgTable : List (Nat × Handler)
  hasCreateCb : Bool
  hasRemoveCb : Bool

/-- Mirror of `LazyUpdate` (`src/world/mod.rs`). -/
inductive LazyUpdate where
  | finishEntity (comps : List CompVal) (e : Entity)
  | despawnEntity (e : Entity)
deriving DecidableEq, Repr

/-- Mirror of `World` (`src/world/mod.rs`).  The unbounded crossbeam channel
holding pending lazy updates is modelled as the FIFO list `queue`
(sender end = append, receiver end = drain from the front). -/
structure World where
  entities : EntityStorage
  components : List (Tid × ComponentVtable)
  resources : ResourceMap
  queue : List LazyUpdate

/-- Mirror of `World::component_vt`: panics (an error here) for an
unregistered component type. -/
def componentVt (w : World) (t : Tid) : Except String ComponentVtable :=
  match w.components.find? (fun p => p.1.idNum = t.idNum) with
  | some p => .ok p.2
  | none =>
      .error ("tried to access the unregistered component type " ++ t.typeName)

/-- Observable trace events: a dispatch delivering a message to an entity, a
handler invocation on one component, and lifecycle callback invocations. -/
inductive Ev where
  | deliver (target : Entity) (msgTid : Nat)
  | invoke (target : Entity) (compTid : Nat) (msgTid : Nat)
  | createCb (e : Entity) (compTid : Nat)
  | removeCb (e : Entity) (compTid : Nat)
deriving DecidableEq, Repr

/-- Mirror of `World::run_creation_callbacks`: walk the freshly inserted
component collection and fire each registered creation callback (recorded as
a trace event; callbacks cannot structurally mutate the world). -/
def runCreationCallbacks (w : World) (e : Entity) : List Ev :=
  match w.entities.findAssoc e with
  | none => []
  | some assoc =>
    assoc.components.filterMap (fun p =>
      match componentVt w p.1 with
      | .ok vt => if vt.hasCreateCb then some (Ev.createCb e p.1.idNum) else none
      | .error _ => none)

/-- Mirror of `World::run_removal_callback`: fire each registered removal
callback over the removed component collection. -/
def runRemovalCallback (w : World) (e : Entity) (comps : EntityAssoc) :
    List Ev :=
  comps.components.filterMap (fun p =>
    match componentVt w p.1 with
    | .ok vt => if vt.hasRemoveCb then some (Ev.removeCb e p.1.idNum) else none
    | .error _ => none)

/-- Mirror of `LazyUpdate::apply` (`src/world/mod.rs`): finishing a reserved
spawn (then creation callbacks), or despawning — but only when the target is
still fully alive; otherwise ("it was double-killed, we hope") a silent
no-op. -/
def applyUpdate (w : World) : LazyUpdate → Except String (World × List Ev)
  | .finishEntity comps e =>
    match w.entities.finishSpawn e (EntityAssoc.new comps) with
    | .error s => .error s
    | .ok st' =>
      let w' : World := { w with entities := st' }
      .ok (w', runCreationCallbacks w' e)
  | .despawnEntity e =>
    match w.entities.liveness e with
    | .error s => .error s
    | .ok EntityLiveness.alive =>
      match w.entities.despawn e with
      | .error s => .error s
      | .ok (prev, st') =>
        let w' : World := { w with entities := st' }
        .ok (w', runRemovalCallback w' e prev)
    | .ok _ => .ok (w, [])

/-- Apply a list of lazy updates in order, stopping at the first panic. -/
def applyAll : World → List LazyUpdate → Except String (World × List Ev)
  | w, [] => .ok (w, [])
  | w, u :: rest =>
    match applyUpdate w u with
    | .error s => .error s
    | .ok (w', evs) =>
      match applyAll w' rest with
      | .error s => .error s
      | .ok (w'', evs') => .ok (w'', evs ++ evs')

/-- Mirror of `World::finalize`: drain the channel into a batch
(`try_iter().collect()` empties the queue), then apply each collected update
in FIFO order. -/
def World.finalize (w : World) : Except String (World × List Ev) :=
  applyAll { w with queue := [] } w.queue

/-- Mirror of `World::lazy_despawn`: enqueue a despawn update. -/
def World.lazyDespawn (w : World) (e : Entity) : World :=
  { w with queue := w.queue ++ [LazyUpdate.despawnEntity e] }

/-- Mirror of the lazy `EntityBuilder::build` path: enqueue a
`FinishEntity` update carrying the builder's tracked components. -/
def World.lazyBuild (w : World) (e : Entity) (declared : List CompVal) :
    World :=
  { w with queue := w.queue ++ [LazyUpdate.finishEntity (buildTracker declared) e] }

/-- Mirror of `ListenerWorldAccess` (`src/messages.rs`): the per-dispatch
cancellation flag and the queued-message channel.  One value is created per
top-level `World::dispatch` call and shared (by reference) with every nested
and queued dispatch made through it. -/
structure ListenerWorldAccess where
  cancelled : Bool
  msgQueue : List (Msg × Entity)
deriving DecidableEq, Repr

namespace ListenerWorldAccess

/-- Mirror of `ListenerWorldAccess::new`: fresh empty channel, flag false. -/
def new : ListenerWorldAccess := ⟨false, []⟩

/-- Mirror of `ListenerWorldAccess::set_cancellation`. -/
def setCancellation (a : ListenerWorldAccess) (b : Bool) :
    ListenerWorldAccess :=
  { a with cancelled := b }

/-- Mirror of `ListenerWorldAccess::cancel`. -/
def cancel (a : ListenerWorldAccess) : ListenerWorldAccess :=
  a.setCancellation true

/-- Mirror of `ListenerWorldAccess::is_cancelled`. -/
def isCancelled (a : ListenerWorldAccess) : Bool := a.cancelled

/-- Mirror of `ListenerWorldAccess::queue_dispatch`: append to the unbounded
channel; the `send` cannot fail (the receiver lives in the same struct). -/
def queueDispatch (a : ListenerWorldAccess) (target : Entity) (m : Msg) :
    ListenerWorldAccess :=
  { a with msgQueue := a.msgQueue ++ [(m, target)] }

end ListenerWorldAccess

/-- Panics the dispatch engine can raise. -/
inductive PanicE where
  | loopPanicE (perpetrator : Entity) (compTypeName : String)
  | getUnfinished (target : Entity)
  | unregisteredComponent (typeName : String)
  | outOfFuel
deriving DecidableEq, Repr

/-- Rendering of an `Entity` for panic messages (`Debug` in the source). -/
def entityRepr (e : Entity) : String :=
  "Entity(" ++ toString e.index ++ "v" ++ toString e.generation ++ ")"

/-- Mirror of `loop_panic`'s message (`src/lib.rs`): it names the offending
entity and the offending component's type name. -/
def loopPanicMsg (perpetrator : Entity) (typeName : String) : String :=
  entityRepr perpetrator
    ++ " sent an event to one of its own components of type "
    ++ typeName
    ++ " when it was mutably borrowed, probably via a loop of events. check the stacktrace."

/-- Locks held by in-progress (outer) dispatches on this thread:
`(entity, component type id, mode)` triples. -/
abbrev Locks := List (Entity × Nat × LockMode)

/-- Whether `RwLock::try_read` on the component would fail: some in-progress
dispatch holds a write guard on this very component. -/
def readBlocked (locks : Locks) (e : Entity) (ct : Nat) : Bool :=
  locks.any (fun l => l.1 == e && l.2.1 == ct && l.2.2 == LockMode.write)

/-- Whether `RwLock::try_write` on the component would fail: some in-progress
dispatch holds any guard on this very component. -/
def writeBlocked (locks : Locks) (e : Entity) (ct : Nat) : Bool :=
  locks.any (fun l => l.1 == e && l.2.1 == ct)

/-- Dispatch results: the threaded message, the shared access object, and the
trace of events, or a panic. -/
abbrev DRes := Except PanicE (Msg × ListenerWorldAccess × List Ev)

/-- Run a handler body's world-access actions in order.  A synchronous
`dispatch` from inside the handler recurses through `dispatchRec` with the
same shared access object and with the handler's lock still held; its
returned message is discarded (the body here does not use it). -/
def runActs (dispatchRec : Locks → ListenerWorldAccess → Entity → Msg → DRes)
    (locks : Locks) :
    ListenerWorldAccess → List HAction →
      Except PanicE (ListenerWorldAccess × List Ev)
  | ctx, [] => .ok (ctx, [])
  | ctx, .cancelAct :: rest => runActs dispatchRec locks ctx.cancel rest
  | ctx, .setCancellationAct b :: rest =>
      runActs dispatchRec locks (ctx.setCancellation b) rest
  | ctx, .queueDispatchAct t m :: rest =>
      runActs dispatchRec locks (ctx.queueDispatch t m) rest
  | ctx, .dispatchSyncAct t m :: rest =>
    match dispatchRec locks ctx t m with
    | .error p => .error p
    | .ok (_, ctx', evs) =>
      match runActs dispatchRec locks ctx' rest with
      | .error p => .error p
      | .ok (ctx'', evs') => .ok (ctx'', evs ++ evs')

/-- The component walk of `dispatch_even_innerer` (`src/world/mod.rs`): visit
the entity's components in stored (insertion) order; for each whose vtable
has a handler for the message's type, acquire its lock (`try_read`, and for a
write handler drop the read guard and `try_write`), failing with `loop_panic`
if the lock is already held incompatibly; invoke the handler, replace the
message with its result, and stop early if the access was cancelled. -/
def walkComps
    (dispatchRec : Locks → ListenerWorldAccess → Entity → Msg → DRes)
    (w : World) (locks : Locks) (target : Entity) :
    ListenerWorldAccess → Msg → List (Tid × Nat) → DRes
  | ctx, msg, [] => .ok (msg, ctx, [])
  | ctx, msg, (ctid, cdata) :: rest =>
    match componentVt w ctid with
    | .error s => .error (.unregisteredComponent s)
    | .ok vt =>
      match vt.msgTable.find? (fun p => p.1 == msg.tid.idNum) with
      | none => walkComps dispatchRec w locks target ctx msg rest
      | some pair =>
        if readBlocked locks target ctid.idNum then
          .error (.loopPanicE target ctid.typeName)
        else
          let h := pair.2
          let blocked :=
            match h.mode with
            | .read => false
            | .write => writeBlocked locks target ctid.idNum
          if blocked then .error (.loopPanicE target ctid.typeName)
          else
            let locks' := (target, ctid.idNum, h.mode) :: locks
            match runActs dispatchRec locks' ctx h.acts with
            | .error p => .error p
            | .ok (ctx', evs) =>
              let msg' : Msg := { msg with data := h.fMsg cdata msg.data }
              let evsHere := Ev.invoke target ctid.idNum msg.tid.idNum :: evs
              if ctx'.isCancelled then .ok (msg', ctx', evsHere)
              else
                match walkComps dispatchRec w locks target ctx' msg' rest with
                | .error p => .error p
                | .ok (msg'', ctx'', evs') => .ok (msg'', ctx'', evsHere ++ evs')

/-- The drain loop at the end of `dispatch_even_innerer`: pop queued
`(message, target)` pairs from the shared channel in FIFO order and dispatch
each (each such dispatch drains the channel further through its own drain
loop, exactly as the shared `try_iter` does in the source). -/
def drainLoop
    (dispatchRec : Locks → ListenerWorldAccess → Entity → Msg → DRes)
    (locks : Locks) :
    Nat → ListenerWorldAccess → Except PanicE (ListenerWorldAccess × List Ev)
  | 0, ctx =>
    match ctx.msgQueue with
    | [] => .ok (ctx, [])
    | _ => .error .outOfFuel
  | dfuel + 1, ctx =>
    match ctx.msgQueue with
    | [] => .ok (ctx, [])
    | (m, t) :: rest =>
      match dispatchRec locks { ctx with msgQueue := rest } t m with
      | .error p => .error p
      | .ok (_, ctx', evs) =>
        match drainLoop dispatchRec locks dfuel ctx' with
        | .error p => .error p
        | .ok (ctx'', evs') => .ok (ctx'', evs ++ evs')

/-- Mirror of `dispatch_even_innerer` (`src/world/mod.rs`): look up the
target's component collection (panicking if it is not finished), walk it,
then drain the queued-message channel; the walk's final message is returned
(the drain does not touch it).  `fuel` bounds nested dispatch depth, so the
recursion is structural and every run with sufficient fuel computes the
source's recursion. -/
def dispatchEvenInnerer : Nat → World → Locks → ListenerWorldAccess →
    Entity → Msg → DRes
  | 0 => fun _ _ _ _ _ => .error .outOfFuel
  | fuel + 1 => fun w locks ctx target msg =>
    match w.entities.findAssoc target with
    | none => .error (.getUnfinished target)
    | some assoc =>
      match walkComps (dispatchEvenInnerer fuel w) w locks target ctx msg
          assoc.components with
      | .error p => .error p
      | .ok (msg', ctx', evs) =>
        match drainLoop (dispatchEvenInnerer fuel w) locks (fuel + 1) ctx' with
        | .error p => .error p
        | .ok (ctx'', evs') =>
          .ok (msg', ctx'', Ev.deliver target msg.tid.idNum :: (evs ++ evs'))

/-- Mirror of `World::dispatch` / `dispatch_inner`: a fresh
`ListenerWorldAccess` (flag false, empty channel) and no locks held. -/
def dispatchTop (fuel : Nat) (w : World) (target : Entity) (msg : Msg) :
    DRes :=
  dispatchEvenInnerer fuel w [] ListenerWorldAccess.new target msg

/-- The delivery events of a trace, in order. -/
def deliversOf (evs : List Ev) : List (Entity × Nat) :=
  evs.filterMap (fun ev =>
    match ev with
    | .deliver t m => some (t, m)
    | _ => none)

/-- The handler-invocation events of a trace, in order. -/
def invokesOf (evs : List Ev) : List Ev :=
  evs.filter (fun ev =>
    match ev with
    | .invoke _ _ _ => true
    | _ => false)

section Helpers

variable {T : Type}

theorem remove_of_get_none {a : EntityAllocator T} {e : Entity}
    (h : a.get e = none) : a.remove e = (none, a) := by
  simp only [EntityAllocator.get] at h
  simp only [EntityAllocator.remove]
  cases hit : a.items[e.index]? with
  | none => simp [hit]
  | some entry =>
    cases entry with
    | free nf => simp [hit]
    | occupied g v =>
      simp only [hit] at h
      have hne : ¬ e.generation = g := by
        intro hg
        simp [hg.symm] at h
      simp [hit, hne]

theorem despawn_error_of_get_none {st : EntityStorage} {e : Entity}
    (h : st.allocator.get e = none) :
    st.despawn e =
      .error "tried to despawn an entity that was not in the allocator" := by
  unfold EntityStorage.despawn
  rw [remove_of_get_none h]

theorem liveness_dead_inv {st : EntityStorage} {e : Entity}
    (h : st.liveness e = .ok .dead) :
    st.findAssoc e = none ∧ st.allocator.get e = none := by
  unfold EntityStorage.liveness at h
  cases h1 : (st.findAssoc e) <;> cases h2 : (st.allocator.get e) <;>
    simp [h1, h2] at h ⊢

/-- `LazyUpdate::apply` never touches the lazy channel: the callbacks it may
run are limited to `CallbackWorldAccess`, which cannot enqueue. -/
theorem applyUpdate_queue_eq {w : World} {u : LazyUpdate} {w' : World}
    {evs : List Ev} (h : applyUpdate w u = .ok (w', evs)) :
    w'.queue = w.queue := by
  cases u with
  | finishEntity comps e =>
    simp only [applyUpdate] at h
    cases hfs : w.entities.finishSpawn e (EntityAssoc.new comps) with
    | error s => simp [hfs] at h
    | ok st' =>
      simp only [hfs] at h
      simp only [Except.ok.injEq, Prod.mk.injEq] at h
      rw [← h.1]
  | despawnEntity e =>
    simp only [applyUpdate] at h
    cases hl : w.entities.liveness e with
    | error s => simp [hl] at h
    | ok lv =>
      simp only [hl] at h
      cases lv with
      | alive =>
        cases hd : w.entities.despawn e with
        | error s => simp [hd] at h
        | ok pr =>
          obtain ⟨prev, st'⟩ := pr
          simp only [hd] at h
          simp only [Except.ok.injEq, Prod.mk.injEq] at h
          rw [← h.1]
      | reservedOnly =>
        simp only [Except.ok.injEq, Prod.mk.injEq] at h
        rw [← h.1]
      | dead =>
        simp only [Except.ok.injEq, Prod.mk.injEq] at h
        rw [← h.1]

theorem applyAll_queue_eq {q : List LazyUpdate} :
    ∀ {w w' : World} {evs : List Ev}, applyAll w q = .ok (w', evs) →
      w'.queue = w.queue := by
  induction q with
  | nil =>
    intro w w' evs h
    simp only [applyAll, Except.ok.injEq, Prod.mk.injEq] at h
    rw [← h.1]
  | cons u rest ih =>
    intro w w' evs h
    simp only [applyAll] at h
    cases h1 : applyUpdate w u with
    | error s => simp [h1] at h
    | ok pr =>
      obtain ⟨w1, evs1⟩ := pr
      simp only [h1] at h
      cases h2 : applyAll w1 rest with
      | error s => simp [h2] at h
      | ok pr2 =>
        obtain ⟨w2, evs2⟩ := pr2
        simp only [h2] at h
        simp only [Except.ok.injEq, Prod.mk.injEq] at h
        have e1 := applyUpdate_queue_eq h1
        have e2 := ih h2
        rw [← h.1, e2, e1]

end Helpers

/-- Claim C8: resource lookups return typed errors and never panic:
requesting write access while a read guard is outstanding yields `Locked`;
any access to a never-inserted resource type yields `NotFound`; and a
poisoned (but otherwise available) resource yields `Poisoned` for both read
and write rather than silently succeeding. -/
theorem c8_resource_lookup_errors (rm : ResourceMap) (t : Tid)
    (entry : ResourceEntry) :
    ((rm.findEntry t = some entry) → 0 < entry.readers →
      rm.write t = .error ⟨t, .locked⟩) ∧
    ((rm.findEntry t = none) →
      rm.read t = .error ⟨t, .notFound⟩ ∧ rm.write t = .error ⟨t, .notFound⟩) ∧
    ((rm.findEntry t = some entry) → entry.poisoned = true →
      entry.writer = false → entry.readers = 0 →
      rm.read t = .error ⟨t, .poisoned⟩ ∧ rm.write t = .error ⟨t, .poisoned⟩) := by
  refine ⟨?_, ?_, ?_⟩
  · intro hfind hreaders
    simp only [ResourceMap.write, hfind]
    rw [if_pos (Or.inr hreaders)]
  · intro hfind
    simp only [ResourceMap.read, ResourceMap.write, hfind]
    exact ⟨trivial, trivial⟩
  · intro hfind hpois hwr hrd
    simp only [ResourceMap.read, ResourceMap.write, hfind, hpois, hwr, hrd]
    simp

/-- Witness for C8 at concrete resource maps: a map whose single entry has an
outstanding read guard, the empty map, and a map whose single entry is
poisoned. -/
theorem c8_resource_lookup_errors_witness :
    ResourceMap.write ⟨[(⟨7, "Res"⟩, ⟨false, 1, false, 42⟩)]⟩ ⟨7, "Res"⟩ =
      .error ⟨⟨7, "Res"⟩, .locked⟩ ∧
    ResourceMap.read (⟨[]⟩ : ResourceMap) ⟨7, "Res"⟩ =
      .error ⟨⟨7, "Res"⟩, .notFound⟩ ∧
    ResourceMap.read ⟨[(⟨7, "Res"⟩, ⟨true, 0, false, 42⟩)]⟩ ⟨7, "Res"⟩ =
      .error ⟨⟨7, "Res"⟩, .poisoned⟩ :=
  ⟨(c8_resource_lookup_errors ⟨[(⟨7, "Res"⟩, ⟨false, 1, false, 42⟩)]⟩
        ⟨7, "Res"⟩ ⟨false, 1, false, 42⟩).1 (by rfl) (by decide),
   ((c8_resource_lookup_errors ⟨[]⟩ ⟨7, "Res"⟩ ⟨false, 0, false, 0⟩).2.1
        (by rfl)).1,
   ((c8_resource_lookup_errors ⟨[(⟨7, "Res"⟩, ⟨true, 0, false, 42⟩)]⟩
        ⟨7, "Res"⟩ ⟨true, 0, false, 42⟩).2.2 (by rfl) rfl rfl rfl).1⟩

/-- Claim C10: applying a queued lazy despawn for an entity that is dead at
apply time is a silent no-op — `Ok`, no removal-callback events, world
unchanged — although the eager `EntityStorage::despawn` path panics for the
same entity. -/
theorem c10_lazy_despawn_dead_noop (w : World) (e : Entity)
    (h : w.entities.liveness e = .ok .dead) :
    applyUpdate w (.despawnEntity e) = .ok (w, []) ∧
    w.entities.despawn e =
      .error "tried to despawn an entity that was not in the allocator" := by
  constructor
  · simp only [applyUpdate, h]
  · exact despawn_error_of_get_none (liveness_dead_inv h).2

/-- Witness for C10: in a world with a fresh (all-free) allocator and no
component data the entity `(0, 0)` is dead; its queued despawn is a no-op and
its eager despawn panics. -/
theorem c10_lazy_despawn_dead_noop_witness :
    applyUpdate ⟨⟨EntityAllocator.new, []⟩, [], ⟨[]⟩, []⟩
        (.despawnEntity ⟨0, 0⟩) =
      .ok (⟨⟨EntityAllocator.new, []⟩, [], ⟨[]⟩, []⟩, []) ∧
    EntityStorage.despawn ⟨EntityAllocator.new, []⟩ ⟨0, 0⟩ =
      .error "tried to despawn an entity that was not in the allocator" :=
  c10_lazy_despawn_dead_noop ⟨⟨EntityAllocator.new, []⟩, [], ⟨[]⟩, []⟩ ⟨0, 0⟩
    (by rfl)

/-- Claim C3: `finalize` leaves the lazy queue empty when it returns and
applies exactly the queued updates in FIFO order; applying one update can
never enqueue further updates (lifecycle callbacks have no access to the
queue), so every update enqueued at any point before `finalize` returns is
processed by it. -/
theorem c3_finalize_drains_queue :
    (∀ (w : World) (u : LazyUpdate) (w' : World) (evs : List Ev),
      applyUpdate w u = .ok (w', evs) → w'.queue = w.queue) ∧
    (∀ (w w' : World) (evs : List Ev),
      w.finalize = .ok (w', evs) → w'.queue = []) ∧
    (∀ w : World, w.finalize = applyAll { w with queue := [] } w.queue) := by
  refine ⟨fun w u w' evs h => applyUpdate_queue_eq h, ?_, fun w => rfl⟩
  intro w w' evs h
  unfold World.finalize at h
  exact applyAll_queue_eq h

/-- Witness for C3: a concrete `finalize` run over a two-update queue returns
with an empty queue. -/
theorem c3_finalize_drains_queue_witness :
    World.finalize
        ⟨⟨EntityAllocator.new, []⟩, [], ⟨[]⟩,
          [.despawnEntity ⟨0, 0⟩, .despawnEntity ⟨1, 0⟩]⟩ =
      .ok (⟨⟨EntityAllocator.new, []⟩, [], ⟨[]⟩, []⟩, []) ∧
    (⟨⟨EntityAllocator.new, []⟩, [], ⟨[]⟩, []⟩ : World).queue = [] :=
  ⟨by rfl,
   c3_finalize_drains_queue.2.1
     ⟨⟨EntityAllocator.new, []⟩, [], ⟨[]⟩,
       [.despawnEntity ⟨0, 0⟩, .despawnEntity ⟨1, 0⟩]⟩
     ⟨⟨EntityAllocator.new, []⟩, [], ⟨[]⟩, []⟩ [] (by rfl)⟩

section WalkHelpers

/-- A walk over components none of which handles the message's type changes
nothing: the message, the access object and the (empty) trace all pass
through. -/
theorem walkComps_no_handlers
    {dispatchRec : Locks → ListenerWorldAccess → Entity → Msg → DRes}
    {w : World} {locks : Locks} {target : Entity} {ctx : ListenerWorldAccess}
    {msg : Msg} {comps : List (Tid × Nat)}
    (h : ∀ p ∈ comps, ∃ vt, componentVt w p.1 = .ok vt ∧
      vt.msgTable.find? (fun q => q.1 == msg.tid.idNum) = none) :
    walkComps dispatchRec w locks target ctx msg comps = .ok (msg, ctx, []) := by
  induction comps with
  | nil => rfl
  | cons p rest ih =>
    obtain ⟨vt, hvt, hfind⟩ := h p (List.mem_cons_self p rest)
    obtain ⟨ctid, cdata⟩ := p
    simp only [walkComps, hvt, hfind]
    exact ih (fun q hq => h q (List.mem_cons_of_mem _ hq))

/-- A walk with no outer locks over components that all handle the message's
type with plain handlers (no world-access actions) invokes every component's
handler, in stored order, and does not touch the access object. -/
theorem walkComps_all_plain
    (dispatchRec : Locks → ListenerWorldAccess → Entity → Msg → DRes)
    (w : World) (target : Entity) (ctx : ListenerWorldAccess) :
    ∀ (comps : List (Tid × Nat)) (msg : Msg),
    ctx.cancelled = false →
    (∀ p ∈ comps, ∃ vt pr, componentVt w p.1 = .ok vt ∧
      vt.msgTable.find? (fun q => q.1 == msg.tid.idNum) = some pr ∧
      pr.2.acts = []) →
    ∃ msg' : Msg, msg'.tid = msg.tid ∧
      walkComps dispatchRec w [] target ctx msg comps =
        .ok (msg', ctx,
          comps.map (fun p => Ev.invoke target p.1.idNum msg.tid.idNum)) := by
  intro comps
  induction comps with
  | nil => exact fun _ _ _ => ⟨_, rfl, rfl⟩
  | cons p rest ih =>
    intro msg hctx hH
    obtain ⟨vt, pr, hvt, hfind, hacts⟩ := hH p (List.mem_cons_self p rest)
    obtain ⟨ctid, cdata⟩ := p
    have hrest := fun q hq => hH q (List.mem_cons_of_mem _ hq)
    simp only [walkComps, hvt, hfind]
    have hrb : readBlocked [] target ctid.idNum = false := rfl
    rw [hrb]
    have hwb :
        (match pr.2.mode with
          | LockMode.read => false
          | LockMode.write => writeBlocked [] target ctid.idNum) = false := by
      cases pr.2.mode <;> rfl
    simp only [hwb, hacts, runActs, Bool.false_eq_true, if_false]
    simp only [ListenerWorldAccess.isCancelled, hctx, Bool.false_eq_true,
      if_false]
    obtain ⟨msg', htid, hrec⟩ := ih { msg with data := pr.2.fMsg cdata msg.data }
      hctx (by
        intro q hq
        obtain ⟨vt2, pr2, h1, h2, h3⟩ := hrest q hq
        exact ⟨vt2, pr2, h1, h2, h3⟩)
    rw [hrec]
    exact ⟨msg', htid, rfl⟩

end WalkHelpers

/-- Claim C9: dispatching a message whose type no component of the (live)
target handles returns the message unchanged, with a fresh access object and
no handler invocations — not an error. -/
theorem c9_no_handler_returns_unchanged (fuel : Nat) (w : World) (e : Entity)
    (assoc : EntityAssoc) (m : Msg)
    (hAssoc : w.entities.findAssoc e = some assoc)
    (hNoH : ∀ p ∈ assoc.components, ∃ vt, componentVt w p.1 = .ok vt ∧
      vt.msgTable.find? (fun q => q.1 == m.tid.idNum) = none) :
    dispatchTop (fuel + 1) w e m =
      .ok (m, ListenerWorldAccess.new, [Ev.deliver e m.tid.idNum]) := by
  simp only [dispatchTop, dispatchEvenInnerer, hAssoc]
  rw [walkComps_no_handlers hNoH]
  rfl

/-- Witness world for C9: one live entity with one component of a registered
type whose vtable has an empty message table. -/
def exW9 : World :=
  ⟨⟨EntityAllocator.new, [(⟨0, 0⟩, ⟨[(⟨1, "A"⟩, 5)]⟩)]⟩,
   [(⟨1, "A"⟩, ⟨[], false, false⟩)], ⟨[]⟩, []⟩

/-- Witness for C9 at a concrete world: a message type nothing handles comes
back unchanged. -/
theorem c9_no_handler_returns_unchanged_witness :
    dispatchTop 1 exW9 ⟨0, 0⟩ ⟨⟨100, "M"⟩, 0⟩ =
      .ok (⟨⟨100, "M"⟩, 0⟩, ListenerWorldAccess.new,
        [Ev.deliver ⟨0, 0⟩ 100]) :=
  c9_no_handler_returns_unchanged 0 exW9 ⟨0, 0⟩ ⟨[(⟨1, "A"⟩, 5)]⟩
    ⟨⟨100, "M"⟩, 0⟩ (by rfl)
    (by
      intro p hp
      simp only [List.mem_singleton] at hp
      subst hp
      exact ⟨⟨[], false, false⟩, by rfl, by rfl⟩)

/-- Building an entity with three components of pairwise distinct types
yields exactly those components, in declaration order. -/
theorem new_buildTracker_three {a b c : CompVal}
    (hab : a.tid.idNum ≠ b.tid.idNum) (hac : a.tid.idNum ≠ c.tid.idNum)
    (hbc : b.tid.idNum ≠ c.tid.idNum) :
    EntityAssoc.new (buildTracker [a, b, c]) =
      ⟨[(a.tid, a.data), (b.tid, b.data), (c.tid, c.data)]⟩ := by
  simp [buildTracker, trackerInsertRaw, EntityAssoc.new, indexMapInsert,
    hab, hac, hbc]

/-- Claim C1: for an entity built with components `[A, B, C]` (distinct
types) in that order, a message all three handle is threaded through their
handlers in exactly that order. -/
theorem c1_dispatch_insertion_order (fuel : Nat) (w : World) (e : Entity)
    (a b c : CompVal) (m : Msg)
    (hab : a.tid.idNum ≠ b.tid.idNum) (hac : a.tid.idNum ≠ c.tid.idNum)
    (hbc : b.tid.idNum ≠ c.tid.idNum)
    (hAssoc : w.entities.findAssoc e =
      some (EntityAssoc.new (buildTracker [a, b, c])))
    (hH : ∀ x ∈ [a, b, c], ∃ vt pr, componentVt w x.tid = .ok vt ∧
      vt.msgTable.find? (fun q => q.1 == m.tid.idNum) = some pr ∧
      pr.2.acts = []) :
    ∃ m' : Msg, dispatchTop (fuel + 1) w e m =
      .ok (m', ListenerWorldAccess.new,
        [Ev.deliver e m.tid.idNum,
         Ev.invoke e a.tid.idNum m.tid.idNum,
         Ev.invoke e b.tid.idNum m.tid.idNum,
         Ev.invoke e c.tid.idNum m.tid.idNum]) := by
  rw [new_buildTracker_three hab hac hbc] at hAssoc
  obtain ⟨m', htid, hwalk⟩ :=
    walkComps_all_plain (dispatchEvenInnerer fuel w) w e
      ListenerWorldAccess.new
      [(a.tid, a.data), (b.tid, b.data), (c.tid, c.data)] m rfl
      (by
        intro p hp
        simp only [List.mem_cons, List.not_mem_nil, or_false] at hp
        rcases hp with rfl | rfl | rfl
        · exact hH a (by simp)
        · exact hH b (by simp)
        · exact hH c (by simp))
  refine ⟨m', ?_⟩
  simp only [dispatchTop, dispatchEvenInnerer, hAssoc]
  rw [hwalk]
  rfl

/-- Plain recording handler for the C1 witness world. -/
def exH1 : Handler := ⟨.read, [], fun _ d => d + 1⟩

/-- Witness vtable for C1: handles message type `100` with `exH1`. -/
def exVt1 : ComponentVtable := ⟨[(100, exH1)], false, false⟩

/-- Witness world for C1: one entity built with components `A`, `B`, `C` in
that order, all three types registered with a handler for message `100`. -/
def exW1 : World :=
  ⟨⟨EntityAllocator.new,
    [(⟨0, 0⟩, EntityAssoc.new (buildTracker
      [⟨⟨1, "A"⟩, 5⟩, ⟨⟨2, "B"⟩, 6⟩, ⟨⟨3, "C"⟩, 7⟩]))]⟩,
   [(⟨1, "A"⟩, exVt1), (⟨2, "B"⟩, exVt1), (⟨3, "C"⟩, exVt1)], ⟨[]⟩, []⟩

/-- Witness for C1 at a concrete world: the three handlers fire in build
order `A`, `B`, `C`. -/
theorem c1_dispatch_insertion_order_witness :
    ∃ m' : Msg, dispatchTop 1 exW1 ⟨0, 0⟩ ⟨⟨100, "M"⟩, 0⟩ =
      .ok (m', ListenerWorldAccess.new,
        [Ev.deliver ⟨0, 0⟩ 100,
         Ev.invoke ⟨0, 0⟩ 1 100,
         Ev.invoke ⟨0, 0⟩ 2 100,
         Ev.invoke ⟨0, 0⟩ 3 100]) :=
  c1_dispatch_insertion_order 0 exW1 ⟨0, 0⟩
    ⟨⟨1, "A"⟩, 5⟩ ⟨⟨2, "B"⟩, 6⟩ ⟨⟨3, "C"⟩, 7⟩ ⟨⟨100, "M"⟩, 0⟩
    (by decide) (by decide) (by decide) (by rfl)
    (by
      intro x hx
      simp only [List.mem_cons, List.not_mem_nil, or_false] at hx
      rcases hx with rfl | rfl | rfl
      · exact ⟨exVt1, (100, exH1), by rfl, by rfl, rfl⟩
      · exact ⟨exVt1, (100, exH1), by rfl, by rfl, rfl⟩
      · exact ⟨exVt1, (100, exH1), by rfl, by rfl, rfl⟩)

/-- Claim C5: a handler holding its component's write lock that synchronously
re-dispatches a message its own component also handles hits the same lock in
a conflicting mode; the dispatch fails loudly with `loop_panic`, whose
message names the offending entity and the offending component's type name.
`rest` is the remainder of the entity's collection; the offending component
sits at the front, `pr` is its handler entry for the outer message (write
mode, whose body synchronously dispatches `m2` to its own entity) and `pr2`
its handler entry for `m2`'s type. -/
theorem c5_sync_reentrancy_loop_panic (fuel : Nat) (w : World) (e : Entity)
    (ct : Tid) (cdata : Nat) (rest : List (Tid × Nat)) (m m2 : Msg)
    (vt : ComponentVtable) (pr pr2 : Nat × Handler) (acts' : List HAction)
    (hAssoc : w.entities.findAssoc e = some ⟨(ct, cdata) :: rest⟩)
    (hVt : componentVt w ct = .ok vt)
    (hFind : vt.msgTable.find? (fun q => q.1 == m.tid.idNum) = some pr)
    (hMode : pr.2.mode = .write)
    (hActs : pr.2.acts = HAction.dispatchSyncAct e m2 :: acts')
    (hFind2 : vt.msgTable.find? (fun q => q.1 == m2.tid.idNum) = some pr2) :
    dispatchTop (fuel + 2) w e m = .error (.loopPanicE e ct.typeName) ∧
    ∃ s2 s3, loopPanicMsg e ct.typeName =
      entityRepr e ++ s2 ++ ct.typeName ++ s3 := by
  constructor
  · simp only [dispatchTop, dispatchEvenInnerer, hAssoc]
    simp only [walkComps, hVt, hFind]
    have h1 : readBlocked [] e ct.idNum = false := rfl
    rw [h1, hMode]
    have h2 : writeBlocked [] e ct.idNum = false := rfl
    simp only [h2, Bool.false_eq_true, if_false, hActs, runActs]
    simp only [dispatchEvenInnerer, hAssoc]
    simp only [walkComps, hVt, hFind2]
    have h3 : readBlocked [(e, ct.idNum, LockMode.write)] e ct.idNum = true := by
      simp [readBlocked]
    rw [h3]
    rfl
  · exact ⟨" sent an event to one of its own components of type ",
      " when it was mutably borrowed, probably via a loop of events. check the stacktrace.",
      rfl⟩

/-- Witness handler for C5: write mode, synchronously re-dispatching message
`100` to its own entity. -/
def exH5 : Handler :=
  ⟨.write, [HAction.dispatchSyncAct ⟨0, 0⟩ ⟨⟨100, "M"⟩, 0⟩], fun _ d => d⟩

/-- Witness vtable for C5. -/
def exVt5 : ComponentVtable := ⟨[(100, exH5)], false, false⟩

/-- Witness world for C5: one entity whose single component handles message
`100` by synchronously dispatching message `100` back to its own entity. -/
def exW5 : World :=
  ⟨⟨EntityAllocator.new, [(⟨0, 0⟩, ⟨[(⟨1, "A"⟩, 5)]⟩)]⟩,
   [(⟨1, "A"⟩, exVt5)], ⟨[]⟩, []⟩

/-- Witness for C5 at a concrete world: the synchronous self-re-entrant
dispatch panics with `loop_panic` naming entity `(0, 0)` and type `A`. -/
theorem c5_sync_reentrancy_loop_panic_witness :
    dispatchTop 2 exW5 ⟨0, 0⟩ ⟨⟨100, "M"⟩, 0⟩ =
      .error (.loopPanicE ⟨0, 0⟩ "A") ∧
    ∃ s2 s3, loopPanicMsg ⟨0, 0⟩ "A" =
      entityRepr ⟨0, 0⟩ ++ s2 ++ "A" ++ s3 :=
  c5_sync_reentrancy_loop_panic 0 exW5 ⟨0, 0⟩ ⟨1, "A"⟩ 5 [] ⟨⟨100, "M"⟩, 0⟩
    ⟨⟨100, "M"⟩, 0⟩ exVt5 (100, exH5) (100, exH5) [] (by rfl) (by rfl)
    (by rfl) rfl rfl (by rfl)

/-- Handler that queues the same message to entity `(1, 0)` and then cancels
(for the C4 worlds). -/
def exH4cancel : Handler :=
  ⟨.read,
   [HAction.queueDispatchAct ⟨1, 0⟩ ⟨⟨100, "M"⟩, 0⟩, HAction.cancelAct],
   fun _ d => d⟩

/-- Plain handler with no actions (for the C4 worlds). -/
def exH4plain : Handler := ⟨.read, [], fun _ d => d⟩

/-- Vtable handling message `100` with the queue-then-cancel handler. -/
def exVt4C : ComponentVtable := ⟨[(100, exH4cancel)], false, false⟩

/-- Vtable handling message `100` with the plain handler. -/
def exVt4P : ComponentVtable := ⟨[(100, exH4plain)], false, false⟩

/-- World for C4: entity `(0, 0)` holds a component of type `10` whose
handler queues message `100` to entity `(1, 0)` and cancels; entity `(1, 0)`
holds components of types `1` and `2`, both with plain handlers for `100`. -/
def exW4 : World :=
  ⟨⟨EntityAllocator.new,
    [(⟨0, 0⟩, ⟨[(⟨10, "Canceller"⟩, 0)]⟩),
     (⟨1, 0⟩, ⟨[(⟨1, "A"⟩, 0), (⟨2, "B"⟩, 0)]⟩)]⟩,
   [(⟨10, "Canceller"⟩, exVt4C), (⟨1, "A"⟩, exVt4P), (⟨2, "B"⟩, exVt4P)],
   ⟨[]⟩, []⟩

/-- Counterexample to C4 as stated: in `exW4`, dispatching message `100` to
entity `(0, 0)` queues a follow-up dispatch to entity `(1, 0)` and cancels.
The follow-up dispatch is drained with the shared cancellation flag still
set: component `1`'s handler runs and then the walk stops, so component `2`'s
handler — registered for the message, with no handler of that dispatch
cancelling — is never invoked, contradicting "each queued follow-up dispatch
starts uncancelled and visits its target's components unless it itself
cancels". -/
theorem c4_counterexample :
    dispatchTop 3 exW4 ⟨0, 0⟩ ⟨⟨100, "M"⟩, 0⟩ =
      .ok (⟨⟨100, "M"⟩, 0⟩, ⟨true, []⟩,
        [Ev.deliver ⟨0, 0⟩ 100, Ev.invoke ⟨0, 0⟩ 10 100,
         Ev.deliver ⟨1, 0⟩ 100, Ev.invoke ⟨1, 0⟩ 1 100]) ∧
    exVt4P.msgTable.find? (fun q => q.1 == (100 : Nat)) =
      some (100, exH4plain) ∧
    Ev.invoke ⟨1, 0⟩ 2 100 ∉
      [Ev.deliver ⟨0, 0⟩ 100, Ev.invoke ⟨0, 0⟩ 10 100,
       Ev.deliver ⟨1, 0⟩ 100, Ev.invoke ⟨1, 0⟩ 1 100] :=
  ⟨by rfl, by rfl, by decide⟩

/-- Whether a handler action is a synchronous nested dispatch. -/
def isSyncAct : HAction → Bool
  | .dispatchSyncAct _ _ => true
  | _ => false

/-- No handler registered in the world synchronously re-dispatches. -/
abbrev NoSyncDispatch (w : World) : Prop :=
  ∀ tv ∈ w.components, ∀ kh ∈ tv.2.msgTable, ∀ a ∈ kh.2.acts,
    isSyncAct a = false

/-- No handler registered in the world resets the cancellation flag to
`false`. -/
abbrev NoCancelReset (w : World) : Prop :=
  ∀ tv ∈ w.components, ∀ kh ∈ tv.2.msgTable,
    HAction.setCancellationAct false ∉ kh.2.acts

/-- A handler body without synchronous dispatches runs without panicking,
emits no events, only appends to the queued-message channel, and — if it does
not reset the flag — keeps a set cancellation flag set. -/
theorem runActs_no_sync
    (rec : Locks → ListenerWorldAccess → Entity → Msg → DRes)
    (locks : Locks) :
    ∀ {acts : List HAction} (ctx : ListenerWorldAccess),
    (∀ a ∈ acts, isSyncAct a = false) →
    ∃ ctx' : ListenerWorldAccess,
      runActs rec locks ctx acts = .ok (ctx', []) ∧
      (ctx.cancelled = true → HAction.setCancellationAct false ∉ acts →
        ctx'.cancelled = true) ∧
      (∃ q', ctx'.msgQueue = ctx.msgQueue ++ q') := by
  intro acts
  induction acts with
  | nil => exact fun _ _ => ⟨_, rfl, fun h _ => h, [], by simp⟩
  | cons a rest ih =>
    intro ctx hns
    have hrest := fun b hb => hns b (List.mem_cons_of_mem _ hb)
    cases a with
    | cancelAct =>
      obtain ⟨ctx', heq, hpres, q', hq⟩ := ih ctx.cancel hrest
      exact ⟨ctx', heq, fun _ hnr =>
        hpres rfl (fun hm => hnr (List.mem_cons_of_mem _ hm)), q', hq⟩
    | setCancellationAct b =>
      cases b with
      | false =>
        obtain ⟨ctx', heq, _, q', hq⟩ := ih (ctx.setCancellation false) hrest
        exact ⟨ctx', heq, fun _ hnr =>
          absurd (List.mem_cons_self _ _) hnr, q', hq⟩
      | true =>
        obtain ⟨ctx', heq, hpres, q', hq⟩ := ih (ctx.setCancellation true) hrest
        exact ⟨ctx', heq, fun _ hnr =>
          hpres rfl (fun hm => hnr (List.mem_cons_of_mem _ hm)), q', hq⟩
    | queueDispatchAct t m =>
      obtain ⟨ctx', heq, hpres, q', hq⟩ := ih (ctx.queueDispatch t m) hrest
      refine ⟨ctx', heq, fun hc hnr =>
        hpres hc (fun hm => hnr (List.mem_cons_of_mem _ hm)),
        (m, t) :: q', ?_⟩
      rw [hq]
      simp [ListenerWorldAccess.queueDispatch]
    | dispatchSyncAct t m =>
      have := hns _ (List.mem_cons_self _ _)
      simp [isSyncAct] at this

/-- A successful vtable lookup comes from a registered entry. -/
theorem componentVt_mem {w : World} {t : Tid} {vt : ComponentVtable}
    (h : componentVt w t = .ok vt) : ∃ tv ∈ w.components, tv.2 = vt := by
  unfold componentVt at h
  cases hf : w.components.find? (fun p => p.1.idNum = t.idNum) with
  | none => rw [hf] at h; exact absurd h (by simp)
  | some p =>
    rw [hf] at h
    simp only [Except.ok.injEq] at h
    exact ⟨p, List.mem_of_find?_eq_some hf, h⟩

/-- A component walk entered with the cancellation flag already set invokes
at most one handler before stopping, provided no registered handler resets
the flag or synchronously re-dispatches. -/
theorem walkComps_cancelled_le_one {w : World}
    (hNR : NoCancelReset w) (hNS : NoSyncDispatch w)
    {rec : Locks → ListenerWorldAccess → Entity → Msg → DRes}
    {locks : Locks} {target : Entity} :
    ∀ {comps : List (Tid × Nat)} {ctx : ListenerWorldAccess} {msg m' : Msg}
      {ctx' : ListenerWorldAccess} {evs : List Ev},
    ctx.cancelled = true →
    walkComps rec w locks target ctx msg comps = .ok (m', ctx', evs) →
    (invokesOf evs).length ≤ 1 := by
  intro comps
  induction comps with
  | nil =>
    intro ctx msg m' ctx' evs _ h
    simp only [walkComps, Except.ok.injEq, Prod.mk.injEq] at h
    rw [← h.2.2]
    simp [invokesOf]
  | cons p rest ih =>
    intro ctx msg m' ctx' evs hc h
    obtain ⟨ctid, cdata⟩ := p
    simp only [walkComps] at h
    cases hvt : componentVt w ctid with
    | error s => rw [hvt] at h; exact absurd h (by simp)
    | ok vt =>
      simp only [hvt] at h
      cases hfind : vt.msgTable.find? (fun q => q.1 == msg.tid.idNum) with
      | none =>
        simp only [hfind] at h
        exact ih hc h
      | some pr =>
        simp only [hfind] at h
        cases hrb : readBlocked locks target ctid.idNum with
        | true => simp [hrb] at h
        | false =>
          simp only [hrb, Bool.false_eq_true, if_false] at h
          cases hbl : (match pr.2.mode with
              | LockMode.read => false
              | LockMode.write => writeBlocked locks target ctid.idNum) with
          | true => simp [hbl] at h
          | false =>
            simp only [hbl, Bool.false_eq_true, if_false] at h
            obtain ⟨tv, htv, htv2⟩ := componentVt_mem hvt
            have hprmem : pr ∈ vt.msgTable := List.mem_of_find?_eq_some hfind
            have hnos : ∀ a ∈ pr.2.acts, isSyncAct a = false := by
              intro a ha
              exact hNS tv htv pr (htv2 ▸ hprmem) a ha
            obtain ⟨ctxa, hra, hpres, -⟩ := runActs_no_sync rec
              ((target, ctid.idNum, pr.2.mode) :: locks) ctx hnos
            simp only [hra] at h
            have hcanc : ctxa.cancelled = true :=
              hpres hc (hNR tv htv pr (htv2 ▸ hprmem))
            simp only [ListenerWorldAccess.isCancelled, hcanc, if_true] at h
            simp only [Except.ok.injEq, Prod.mk.injEq] at h
            rw [← h.2.2]
            simp [invokesOf]

/-- Claim C4 (amended): the cancellation flag is created `false` once per
top-level dispatch, when its `ListenerWorldAccess` is built — but that access
object, flag included, is shared with the queued follow-up dispatches drained
after the walk, and nothing resets the flag between them; a follow-up
dispatch whose walk starts with the flag already set therefore invokes at
most one handler (the first with a matching handler) instead of visiting all
of its target's components, unless some handler sets the flag back to
`false`. -/
theorem c4_cancellation_scope_amended (w : World)
    (hNR : NoCancelReset w) (hNS : NoSyncDispatch w) :
    ListenerWorldAccess.new.isCancelled = false ∧
    (∀ (rec : Locks → ListenerWorldAccess → Entity → Msg → DRes)
       (locks : Locks) (target : Entity) (ctx : ListenerWorldAccess)
       (msg m' : Msg) (comps : List (Tid × Nat))
       (ctx' : ListenerWorldAccess) (evs : List Ev),
       ctx.cancelled = true →
       walkComps rec w locks target ctx msg comps = .ok (m', ctx', evs) →
       (invokesOf evs).length ≤ 1) :=
  ⟨rfl, fun _ _ _ _ _ _ _ _ _ hc h => walkComps_cancelled_le_one hNR hNS hc h⟩

/-- Witness for the amended C4 at a concrete world: the follow-up walk over
entity `(1, 0)`'s two handled components, entered cancelled, invokes exactly
one handler. -/
theorem c4_cancellation_scope_amended_witness :
    ListenerWorldAccess.new.isCancelled = false ∧
    (invokesOf [Ev.invoke ⟨1, 0⟩ 1 100]).length ≤ 1 :=
  ⟨(c4_cancellation_scope_amended exW4 (by decide) (by decide)).1,
   (c4_cancellation_scope_amended exW4 (by decide) (by decide)).2
     (dispatchEvenInnerer 1 exW4) [] ⟨1, 0⟩ ⟨true, []⟩ ⟨⟨100, "M"⟩, 0⟩
     ⟨⟨100, "M"⟩, 0⟩ [(⟨1, "A"⟩, 0), (⟨2, "B"⟩, 0)] ⟨true, []⟩
     [Ev.invoke ⟨1, 0⟩ 1 100] rfl (by rfl)⟩

theorem deliversOf_append (l1 l2 : List Ev) :
    deliversOf (l1 ++ l2) = deliversOf l1 ++ deliversOf l2 :=
  List.filterMap_append l1 l2 _

theorem deliversOf_deliver_cons (t : Entity) (mt : Nat) (l : List Ev) :
    deliversOf (Ev.deliver t mt :: l) = (t, mt) :: deliversOf l := rfl

theorem deliversOf_invoke_cons (t : Entity) (ct mt : Nat) (l : List Ev) :
    deliversOf (Ev.invoke t ct mt :: l) = deliversOf l := rfl

/-- A walk whose handlers never synchronously dispatch delivers no message of
its own and only appends to the shared queued-message channel. -/
theorem walkComps_no_sync_props {w : World} (hNS : NoSyncDispatch w)
    {rec : Locks → ListenerWorldAccess → Entity → Msg → DRes}
    {locks : Locks} {target : Entity} :
    ∀ {comps : List (Tid × Nat)} {ctx : ListenerWorldAccess} {msg m' : Msg}
      {ctx' : ListenerWorldAccess} {evs : List Ev},
    walkComps rec w locks target ctx msg comps = .ok (m', ctx', evs) →
    deliversOf evs = [] ∧ ∃ q', ctx'.msgQueue = ctx.msgQueue ++ q' := by
  intro comps
  induction comps with
  | nil =>
    intro ctx msg m' ctx' evs h
    simp only [walkComps, Except.ok.injEq, Prod.mk.injEq] at h
    refine ⟨?_, [], ?_⟩
    · rw [← h.2.2]; rfl
    · rw [← h.2.1]; simp
  | cons p rest ih =>
    intro ctx msg m' ctx' evs h
    obtain ⟨ctid, cdata⟩ := p
    simp only [walkComps] at h
    cases hvt : componentVt w ctid with
    | error s => rw [hvt] at h; exact absurd h (by simp)
    | ok vt =>
      simp only [hvt] at h
      cases hfind : vt.msgTable.find? (fun q => q.1 == msg.tid.idNum) with
      | none => simp only [hfind] at h; exact ih h
      | some pr =>
        simp only [hfind] at h
        cases hrb : readBlocked locks target ctid.idNum with
        | true => simp [hrb] at h
        | false =>
          simp only [hrb, Bool.false_eq_true, if_false] at h
          cases hbl : (match pr.2.mode with
              | LockMode.read => false
              | LockMode.write => writeBlocked locks target ctid.idNum) with
          | true => simp [hbl] at h
          | false =>
            simp only [hbl, Bool.false_eq_true, if_false] at h
            obtain ⟨tv, htv, htv2⟩ := componentVt_mem hvt
            have hprmem : pr ∈ vt.msgTable := List.mem_of_find?_eq_some hfind
            have hnos : ∀ a ∈ pr.2.acts, isSyncAct a = false :=
              fun a ha => hNS tv htv pr (htv2 ▸ hprmem) a ha
            obtain ⟨ctxa, hra, -, q1, hq1⟩ := runActs_no_sync rec
              ((target, ctid.idNum, pr.2.mode) :: locks) ctx hnos
            simp only [hra] at h
            cases hca : ctxa.isCancelled with
            | true =>
              rw [if_pos hca] at h
              simp only [Except.ok.injEq, Prod.mk.injEq] at h
              refine ⟨?_, q1, ?_⟩
              · rw [← h.2.2]; rfl
              · rw [← h.2.1]; exact hq1
            | false =>
              rw [if_neg (by simp [hca])] at h
              cases hwr : walkComps rec w locks target ctxa
                  { msg with data := pr.2.fMsg cdata msg.data } rest with
              | error p => simp [hwr] at h
              | ok res =>
                obtain ⟨m2, ctx2, evs2⟩ := res
                simp only [hwr] at h
                simp only [Except.ok.injEq, Prod.mk.injEq] at h
                obtain ⟨hdel2, q2, hq2⟩ := ih hwr
                refine ⟨?_, q1 ++ q2, ?_⟩
                · rw [← h.2.2, deliversOf_append, hdel2]
                  rfl
                · rw [← h.2.1, hq2, hq1]
                  simp

/-- The `(target, message type)` delivery item of a queued message. -/
def qItem (p : Msg × Entity) : Entity × Nat := (p.2, p.1.tid.idNum)

/-- In a world without synchronous re-dispatch, a successful dispatch's trace
delivers first to its own target, then to the messages already queued on the
shared channel, in FIFO order; and it leaves the channel empty. -/
theorem dispatch_delivers {w : World} (hNS : NoSyncDispatch w) :
    ∀ (fuel : Nat) (locks : Locks) (ctx : ListenerWorldAccess) (t : Entity)
      (m m' : Msg) (ctx' : ListenerWorldAccess) (tr : List Ev),
    dispatchEvenInnerer fuel w locks ctx t m = .ok (m', ctx', tr) →
    (∃ extra, deliversOf tr =
      (t, m.tid.idNum) :: (ctx.msgQueue.map qItem ++ extra)) ∧
    ctx'.msgQueue = [] := by
  intro fuel
  induction fuel with
  | zero =>
    intro locks ctx t m m' ctx' tr h
    exact absurd h (by simp [dispatchEvenInnerer])
  | succ fuel ih =>
    have hdrain_all : ∀ (dfuel : Nat) (locks : Locks)
        (ctx ctx' : ListenerWorldAccess) (tr : List Ev),
        drainLoop (dispatchEvenInnerer fuel w) locks dfuel ctx =
          .ok (ctx', tr) →
        (∃ extra, deliversOf tr = ctx.msgQueue.map qItem ++ extra) ∧
        ctx'.msgQueue = [] := by
      intro dfuel
      induction dfuel with
      | zero =>
        intro locks ctx ctx' tr h
        simp only [drainLoop] at h
        cases hq : ctx.msgQueue with
        | nil =>
          simp only [hq] at h
          simp only [Except.ok.injEq, Prod.mk.injEq] at h
          refine ⟨⟨[], ?_⟩, ?_⟩
          · rw [← h.2]; rfl
          · rw [← h.1]; exact hq
        | cons x rest => simp [hq] at h
      | succ dfuel ihd =>
        intro locks ctx ctx' tr h
        simp only [drainLoop] at h
        cases hq : ctx.msgQueue with
        | nil =>
          simp only [hq] at h
          simp only [Except.ok.injEq, Prod.mk.injEq] at h
          refine ⟨⟨[], ?_⟩, ?_⟩
          · rw [← h.2]; rfl
          · rw [← h.1]; exact hq
        | cons x rest =>
          obtain ⟨xm, xt⟩ := x
          simp only [hq] at h
          cases hd : dispatchEvenInnerer fuel w locks
              { ctx with msgQueue := rest } xt xm with
          | error p => simp [hd] at h
          | ok res =>
            obtain ⟨m1, ctx1, tr1⟩ := res
            simp only [hd] at h
            cases hd2 : drainLoop (dispatchEvenInnerer fuel w) locks dfuel
                ctx1 with
            | error p => simp [hd2] at h
            | ok res2 =>
              obtain ⟨ctx2, tr2⟩ := res2
              simp only [hd2] at h
              simp only [Except.ok.injEq, Prod.mk.injEq] at h
              obtain ⟨⟨e1, hd1⟩, hq1⟩ := ih _ _ _ _ _ _ _ hd
              obtain ⟨⟨e2, hd2'⟩, hq2⟩ := ihd _ _ _ _ hd2
              constructor
              · refine ⟨e1 ++ e2, ?_⟩
                rw [← h.2, deliversOf_append, hd1, hd2', hq1]
                simp [qItem]
              · rw [← h.1]; exact hq2
    intro locks ctx t m m' ctx' tr h
    simp only [dispatchEvenInnerer] at h
    cases hassoc : w.entities.findAssoc t with
    | none => rw [hassoc] at h; exact absurd h (by simp)
    | some assoc =>
      simp only [hassoc] at h
      cases hwalk : walkComps (dispatchEvenInnerer fuel w) w locks t ctx m
          assoc.components with
      | error p => simp [hwalk] at h
      | ok res =>
        obtain ⟨m1, ctxW, trW⟩ := res
        simp only [hwalk] at h
        cases hdrain : drainLoop (dispatchEvenInnerer fuel w) locks (fuel + 1)
            ctxW with
        | error p => simp [hdrain] at h
        | ok res2 =>
          obtain ⟨ctxD, trD⟩ := res2
          simp only [hdrain] at h
          simp only [Except.ok.injEq, Prod.mk.injEq] at h
          obtain ⟨hdelW, qW, hqW⟩ := walkComps_no_sync_props hNS hwalk
          obtain ⟨⟨e2, hdelD⟩, hqD⟩ := hdrain_all _ _ _ _ _ hdrain
          constructor
          · refine ⟨qW.map qItem ++ e2, ?_⟩
            rw [← h.2.2, deliversOf_deliver_cons, deliversOf_append, hdelW,
              hdelD, hqW]
            simp
          · rw [← h.2.1]; exact hqD

/-- Claim C6, amended: queuing a dispatch from inside a handler is a total
FIFO append to the shared channel (the `send` cannot fail, unconditionally).
The delivered-after-the-walk half of the original claim holds only when no
registered handler synchronously re-dispatches — a synchronous nested
dispatch runs its own drain loop over the shared channel and delivers
walk-queued messages before the outer walk resumes (see the counterexample).
Under that proviso the outer dispatch first completes its walk over the
original entity, returning the walk's final message untouched by the drain,
and only then drains the channel, delivering the messages queued during the
walk in FIFO enqueue order before the dispatch call returns. -/
theorem c6_queued_dispatch_fifo_amended (w : World) (hNS : NoSyncDispatch w) :
    (∀ (a : ListenerWorldAccess) (t : Entity) (m : Msg),
      (a.queueDispatch t m).msgQueue = a.msgQueue ++ [(m, t)]) ∧
    (∀ (fuel : Nat) (t : Entity) (m m' : Msg) (ctx' : ListenerWorldAccess)
       (tr : List Ev),
      dispatchTop (fuel + 1) w t m = .ok (m', ctx', tr) →
      ∃ assoc ctxW trW trD extra,
        w.entities.findAssoc t = some assoc ∧
        walkComps (dispatchEvenInnerer fuel w) w [] t ListenerWorldAccess.new
          m assoc.components = .ok (m', ctxW, trW) ∧
        drainLoop (dispatchEvenInnerer fuel w) [] (fuel + 1) ctxW =
          .ok (ctx', trD) ∧
        tr = Ev.deliver t m.tid.idNum :: (trW ++ trD) ∧
        deliversOf trW = [] ∧
        deliversOf trD = ctxW.msgQueue.map qItem ++ extra ∧
        ctx'.msgQueue = []) := by
  constructor
  · intro a t m
    rfl
  · intro fuel t m m' ctx' tr h
    simp only [dispatchTop, dispatchEvenInnerer] at h
    cases hassoc : w.entities.findAssoc t with
    | none => rw [hassoc] at h; exact absurd h (by simp)
    | some assoc =>
      simp only [hassoc] at h
      cases hwalk : walkComps (dispatchEvenInnerer fuel w) w [] t
          ListenerWorldAccess.new m assoc.components with
      | error p => simp [hwalk] at h
      | ok res =>
        obtain ⟨m1, ctxW, trW⟩ := res
        simp only [hwalk] at h
        cases hdrain : drainLoop (dispatchEvenInnerer fuel w) [] (fuel + 1)
            ctxW with
        | error p => simp [hdrain] at h
        | ok res2 =>
          obtain ⟨ctxD, trD⟩ := res2
          simp only [hdrain] at h
          simp only [Except.ok.injEq, Prod.mk.injEq] at h
          obtain ⟨hm, hctx, htr⟩ := h
          subst hm hctx htr
          obtain ⟨hdelW, qW, hqW⟩ := walkComps_no_sync_props hNS hwalk
          have hdd := dispatch_delivers hNS
          -- reuse the drain analysis at this exact drain call
          have hAfe : ∀ (dfuel : Nat) (locks : Locks)
              (c c' : ListenerWorldAccess) (tr2 : List Ev),
              drainLoop (dispatchEvenInnerer fuel w) locks dfuel c =
                .ok (c', tr2) →
              (∃ extra, deliversOf tr2 = c.msgQueue.map qItem ++ extra) ∧
              c'.msgQueue = [] := by
            intro dfuel
            induction dfuel with
            | zero =>
              intro locks c c' tr2 h2
              simp only [drainLoop] at h2
              cases hq : c.msgQueue with
              | nil =>
                simp only [hq] at h2
                simp only [Except.ok.injEq, Prod.mk.injEq] at h2
                refine ⟨⟨[], ?_⟩, ?_⟩
                · rw [← h2.2]; rfl
                · rw [← h2.1]; exact hq
              | cons x rest => simp [hq] at h2
            | succ dfuel ihd =>
              intro locks c c' tr2 h2
              simp only [drainLoop] at h2
              cases hq : c.msgQueue with
              | nil =>
                simp only [hq] at h2
                simp only [Except.ok.injEq, Prod.mk.injEq] at h2
                refine ⟨⟨[], ?_⟩, ?_⟩
                · rw [← h2.2]; rfl
                · rw [← h2.1]; exact hq
              | cons x rest =>
                obtain ⟨xm, xt⟩ := x
                simp only [hq] at h2
                cases hd : dispatchEvenInnerer fuel w locks
                    { c with msgQueue := rest } xt xm with
                | error p => simp [hd] at h2
                | ok res =>
                  obtain ⟨m2, c1, tr3⟩ := res
                  simp only [hd] at h2
                  cases hd2 : drainLoop (dispatchEvenInnerer fuel w) locks
                      dfuel c1 with
                  | error p => simp [hd2] at h2
                  | ok res2 =>
                    obtain ⟨c2, tr4⟩ := res2
                    simp only [hd2] at h2
                    simp only [Except.ok.injEq, Prod.mk.injEq] at h2
                    obtain ⟨⟨e1, hd1⟩, hq1⟩ := hdd fuel _ _ _ _ _ _ _ hd
                    obtain ⟨⟨e2, hd2'⟩, hq2⟩ := ihd _ _ _ _ hd2
                    constructor
                    · refine ⟨e1 ++ e2, ?_⟩
                      rw [← h2.2, deliversOf_append, hd1, hd2', hq1]
                      simp [qItem]
                    · rw [← h2.1]; exact hq2
          obtain ⟨⟨e2, hdelD⟩, hqD⟩ := hAfe _ _ _ _ _ hdrain
          exact ⟨assoc, ctxW, trW, trD, e2, rfl, hwalk, hdrain, rfl,
            hdelW, hdelD, hqD⟩

/-- Handler for the C6 witness world: queues message `100` (data `7`) to
entity `(1, 0)` from inside the walk. -/
def exH6q : Handler :=
  ⟨.read, [HAction.queueDispatchAct ⟨1, 0⟩ ⟨⟨100, "M"⟩, 7⟩], fun _ d => d⟩

/-- Plain handler for the C6 witness world. -/
def exH6p : Handler := ⟨.read, [], fun _ d => d⟩

/-- Vtable of the queuing component type in the C6 witness world. -/
def exVt6X : ComponentVtable := ⟨[(100, exH6q)], false, false⟩

/-- Vtable of the plain component type in the C6 witness world. -/
def exVt6Y : ComponentVtable := ⟨[(100, exH6p)], false, false⟩

/-- World for the C6 witness: entity `(0, 0)`'s component queues a dispatch
to entity `(1, 0)` while handling the message. -/
def exW6 : World :=
  ⟨⟨EntityAllocator.new,
    [(⟨0, 0⟩, ⟨[(⟨1, "X"⟩, 0)]⟩), (⟨1, 0⟩, ⟨[(⟨2, "Y"⟩, 0)]⟩)]⟩,
   [(⟨1, "X"⟩, exVt6X), (⟨2, "Y"⟩, exVt6Y)], ⟨[]⟩, []⟩

/-- Witness for the amended C6 at a concrete world (whose handlers do not
synchronously re-dispatch): the handler-queued dispatch to `(1, 0)` is
enqueued without failure and delivered after the walk over `(0, 0)`
completes, before the dispatch returns. -/
theorem c6_queued_dispatch_fifo_amended_witness :
    (ListenerWorldAccess.queueDispatch ⟨false, []⟩ ⟨1, 0⟩
        ⟨⟨100, "M"⟩, 7⟩).msgQueue = [(⟨⟨100, "M"⟩, 7⟩, ⟨1, 0⟩)] ∧
    (∃ assoc ctxW trW trD extra,
      exW6.entities.findAssoc ⟨0, 0⟩ = some assoc ∧
      walkComps (dispatchEvenInnerer 1 exW6) exW6 [] ⟨0, 0⟩
        ListenerWorldAccess.new ⟨⟨100, "M"⟩, 0⟩ assoc.components =
        .ok (⟨⟨100, "M"⟩, 0⟩, ctxW, trW) ∧
      drainLoop (dispatchEvenInnerer 1 exW6) [] 2 ctxW =
        .ok (⟨false, []⟩, trD) ∧
      [Ev.deliver ⟨0, 0⟩ 100, Ev.invoke ⟨0, 0⟩ 1 100,
       Ev.deliver ⟨1, 0⟩ 100, Ev.invoke ⟨1, 0⟩ 2 100] =
        Ev.deliver ⟨0, 0⟩ 100 :: (trW ++ trD) ∧
      deliversOf trW = [] ∧
      deliversOf trD = ctxW.msgQueue.map qItem ++ extra ∧
      (⟨false, []⟩ : ListenerWorldAccess).msgQueue = []) :=
  ⟨(c6_queued_dispatch_fifo_amended exW6 (by decide)).1 ⟨false, []⟩ ⟨1, 0⟩
      ⟨⟨100, "M"⟩, 7⟩,
   (c6_queued_dispatch_fifo_amended exW6 (by decide)).2 1 ⟨0, 0⟩ ⟨⟨100, "M"⟩, 0⟩
      ⟨⟨100, "M"⟩, 0⟩ ⟨false, []⟩
      [Ev.deliver ⟨0, 0⟩ 100, Ev.invoke ⟨0, 0⟩ 1 100,
       Ev.deliver ⟨1, 0⟩ 100, Ev.invoke ⟨1, 0⟩ 2 100] (by rfl)⟩

/-- Handler for the C6 counterexample world: synchronously dispatches message
`100` (data `1`) to entity `(2, 0)` from inside the walk. -/
def exH6s : Handler :=
  ⟨.read, [HAction.dispatchSyncAct ⟨2, 0⟩ ⟨⟨100, "M"⟩, 1⟩], fun _ d => d⟩

/-- Vtable of the synchronously dispatching component type in the C6
counterexample world. -/
def exVt6S : ComponentVtable := ⟨[(100, exH6s)], false, false⟩

/-- Vtable with no handlers (the sync-dispatch target's component in the C6
counterexample world). -/
def exVt6N : ComponentVtable := ⟨[], false, false⟩

/-- World for the C6 counterexample: entity `(0, 0)` is built with components
`A`, `B`, `C` in that order; `A`'s handler queues message `100` to entity
`(1, 0)`, `B`'s handler synchronously dispatches to entity `(2, 0)`, and `C`
has a plain handler.  Entity `(1, 0)` has one component with a plain handler
for `100`; entity `(2, 0)` has one handlerless component. -/
def exW6c : World :=
  ⟨⟨EntityAllocator.new,
    [(⟨0, 0⟩, ⟨[(⟨1, "A"⟩, 0), (⟨2, "B"⟩, 0), (⟨3, "C"⟩, 0)]⟩),
     (⟨1, 0⟩, ⟨[(⟨4, "Yc"⟩, 0)]⟩),
     (⟨2, 0⟩, ⟨[(⟨5, "Zc"⟩, 0)]⟩)]⟩,
   [(⟨1, "A"⟩, exVt6X), (⟨2, "B"⟩, exVt6S), (⟨3, "C"⟩, exVt6Y),
    (⟨4, "Yc"⟩, exVt6Y), (⟨5, "Zc"⟩, exVt6N)], ⟨[]⟩, []⟩

/-- The trace of dispatching message `100` to entity `(0, 0)` in the C6
counterexample world. -/
def c6cTrace : List Ev :=
  [Ev.deliver ⟨0, 0⟩ 100, Ev.invoke ⟨0, 0⟩ 1 100,
   Ev.invoke ⟨0, 0⟩ 2 100, Ev.deliver ⟨2, 0⟩ 100,
   Ev.deliver ⟨1, 0⟩ 100, Ev.invoke ⟨1, 0⟩ 4 100,
   Ev.invoke ⟨0, 0⟩ 3 100]

/-- Counterexample to C6 as stated: in `exW6c`, dispatching message `100` to
entity `(0, 0)` has component `A`'s handler queue a follow-up message to
entity `(1, 0)`; component `B`'s handler then synchronously dispatches to
entity `(2, 0)`, and that nested dispatch's drain loop pops the shared
channel and delivers the queued message to `(1, 0)` right there — before
component `C` of the triggering walk is invoked (the walk is never
cancelled: the flag ends `false` and all three of `(0, 0)`'s handlers run).
This contradicts "it is delivered to its target only after the triggering
dispatch's component walk over the original entity has completed (or been
cancelled)": the delivery event to `(1, 0)` precedes the walk's own
invocation of component `C` in the trace. -/
theorem c6_counterexample :
    dispatchTop 3 exW6c ⟨0, 0⟩ ⟨⟨100, "M"⟩, 0⟩ =
      .ok (⟨⟨100, "M"⟩, 0⟩, ⟨false, []⟩, c6cTrace) ∧
    (∃ mid post,
      c6cTrace =
        [Ev.deliver ⟨0, 0⟩ 100, Ev.invoke ⟨0, 0⟩ 1 100,
         Ev.invoke ⟨0, 0⟩ 2 100, Ev.deliver ⟨2, 0⟩ 100] ++
          Ev.deliver ⟨1, 0⟩ 100 ::
            (mid ++ Ev.invoke ⟨0, 0⟩ 3 100 :: post)) ∧
    exH6q.acts = [HAction.queueDispatchAct ⟨1, 0⟩ ⟨⟨100, "M"⟩, 7⟩] :=
  ⟨by rfl, ⟨[Ev.invoke ⟨1, 0⟩ 4 100], [], by rfl⟩, rfl⟩

section AllocatorSafety

variable {T : Type}

/-- Operations a caller can perform on an allocator after a despawn (a failed
or panicking operation leaves the allocator unchanged). -/
inductive AllocOp (T : Type) where
  | tryInsertOp (v : T)
  | insertOp (v : T)
  | insertIncreasingOp (v : T)
  | removeOp (e : Entity)
  | reserveOp (n : Nat)

/-- Apply one allocator operation. -/
def stepOp (a : EntityAllocator T) : AllocOp T → EntityAllocator T
  | .tryInsertOp v =>
    match a.tryInsert v with
    | .ok (some (_, a')) => a'
    | _ => a
  | .insertOp v =>
    match a.insert v with
    | .ok (_, a') => a'
    | _ => a
  | .insertIncreasingOp v => (a.insertIncreasing v).2
  | .removeOp e => (a.remove e).2
  | .reserveOp n => a.reserve n

/-- Apply a sequence of allocator operations. -/
def runOps (a : EntityAllocator T) : List (AllocOp T) → EntityAllocator T
  | [] => a
  | op :: rest => runOps (stepOp a op) rest

/-- Bound on an entry's stored generation. -/
def entryGenLe : Entry T → Nat → Bool
  | .occupied g _, bound => decide (g ≤ bound)
  | _, _ => true

/-- Allocator well-formedness: every occupied slot's stored generation is at
most the global generation counter (true of every allocator the module
builds: slots are stamped with the current counter and the counter never
decreases). -/
abbrev InvGen (a : EntityAllocator T) : Prop :=
  ∀ en ∈ a.items, entryGenLe en a.generation = true

/-- The handle `e` is provably dead in `a`: the counter passed its generation
and any occupant of its slot has a strictly newer generation. -/
def DeadFor (a : EntityAllocator T) (e : Entity) : Prop :=
  e.generation < a.generation ∧
  ∀ g v, a.items[e.index]? = some (Entry.occupied g v) → e.generation < g

theorem tryInsert_spec {a : EntityAllocator T} {v : T} {e' : Entity}
    {a'' : EntityAllocator T} (h : a.tryInsert v = .ok (some (e', a''))) :
    a''.generation = a.generation ∧ e'.generation = a.generation ∧
    a''.items = a.items.set e'.index (Entry.occupied a.generation v) := by
  simp only [EntityAllocator.tryInsert, EntityAllocator.tryAllocNextIndex] at h
  cases hh : a.freeListHead with
  | none => simp [hh] at h
  | some i =>
    simp only [hh] at h
    cases hit : a.items[i]? with
    | none => simp [hit] at h
    | some en =>
      cases en with
      | occupied g v2 => simp [hit] at h
      | free nf =>
        simp only [hit] at h
        simp only [Except.ok.injEq, Option.some.injEq, Prod.mk.injEq] at h
        obtain ⟨he, ha⟩ := h
        subst he ha
        exact ⟨rfl, rfl, rfl⟩

theorem reserve_generation (a : EntityAllocator T) (n : Nat) :
    (a.reserve n).generation = a.generation := rfl

theorem insert_gen {a : EntityAllocator T} {v : T} {e' : Entity}
    {a' : EntityAllocator T} (h : a.insert v = .ok (e', a')) :
    a'.generation = a.generation := by
  simp only [EntityAllocator.insert] at h
  cases h1 : a.tryInsert v with
  | error s => rw [h1] at h; simp at h
  | ok o =>
    rw [h1] at h
    cases o with
    | some r =>
      obtain ⟨e2, a2⟩ := r
      simp only [Except.ok.injEq, Prod.mk.injEq] at h
      rw [← h.2]
      exact (tryInsert_spec h1).1
    | none =>
      cases h2 : (a.reserve a.len).tryInsert v with
      | error s => rw [h2] at h; simp at h
      | ok o2 =>
        rw [h2] at h
        cases o2 with
        | none => simp at h
        | some r =>
          obtain ⟨e2, a2⟩ := r
          simp only [Except.ok.injEq, Prod.mk.injEq] at h
          rw [← h.2]
          exact (tryInsert_spec h2).1

theorem remove_spec {a : EntityAllocator T} {e : Entity} {v : T}
    {a' : EntityAllocator T} (h : a.remove e = (some v, a')) :
    a.items[e.index]? = some (Entry.occupied e.generation v) ∧
    a'.generation = a.generation + 1 ∧
    a'.items = a.items.set e.index (Entry.free a.freeListHead) := by
  simp only [EntityAllocator.remove] at h
  by_cases hlen : e.index ≥ a.items.length
  · rw [if_pos hlen] at h; simp at h
  · rw [if_neg hlen] at h
    cases hit : a.items[e.index]? with
    | none => simp [hit] at h
    | some en =>
      cases en with
      | free nf => simp [hit] at h
      | occupied g v2 =>
        simp only [hit] at h
        by_cases hg : e.generation = g
        · rw [if_pos hg] at h
          simp only [Prod.mk.injEq, Option.some.injEq] at h
          obtain ⟨hv, ha⟩ := h
          subst hv ha
          exact ⟨by rw [hg], rfl, rfl⟩
        · rw [if_neg hg] at h; simp at h

theorem deadFor_get_none {a : EntityAllocator T} {e : Entity}
    (h : DeadFor a e) : a.get e = none := by
  unfold EntityAllocator.get
  cases hit : a.items[e.index]? with
  | none => rfl
  | some en =>
    cases en with
    | free nf => rfl
    | occupied g v =>
      have hlt := h.2 g v hit
      have hne : g ≠ e.generation := by omega
      simp [hne]

theorem tryInsert_deadFor {a : EntityAllocator T} {e : Entity}
    (hd : DeadFor a e) {v : T} {e' : Entity} {a'' : EntityAllocator T}
    (h : a.tryInsert v = .ok (some (e', a''))) : DeadFor a'' e := by
  obtain ⟨hgen, hitems⟩ := hd
  obtain ⟨hg, -, hit⟩ := tryInsert_spec h
  constructor
  · rw [hg]; exact hgen
  · intro g v2 hlook
    rw [hit, List.getElem?_set] at hlook
    by_cases hix : e'.index = e.index
    · rw [if_pos hix] at hlook
      by_cases hlt : e'.index < a.items.length
      · rw [if_pos hlt] at hlook
        simp only [Option.some.injEq, Entry.occupied.injEq] at hlook
        rw [← hlook.1]
        exact hgen
      · rw [if_neg hlt] at hlook
        exact absurd hlook (by simp)
    · rw [if_neg hix] at hlook
      exact hitems g v2 hlook

theorem reserve_deadFor {a : EntityAllocator T} {e : Entity}
    (hd : DeadFor a e) (n : Nat) : DeadFor (a.reserve n) e := by
  obtain ⟨hgen, hitems⟩ := hd
  refine ⟨hgen, ?_⟩
  intro g v hlook
  simp only [EntityAllocator.reserve] at hlook
  by_cases hlt : e.index < a.items.length
  · rw [List.getElem?_append_left hlt] at hlook
    exact hitems g v hlook
  · rw [List.getElem?_append_right (Nat.le_of_not_lt hlt)] at hlook
    have hm := List.getElem?_mem hlook
    simp only [List.mem_map] at hm
    obtain ⟨i, -, hi⟩ := hm
    split at hi <;> exact absurd hi (by simp)

theorem insertIncreasing_deadFor {a : EntityAllocator T} {e : Entity}
    (hd : DeadFor a e) (v : T) : DeadFor (a.insertIncreasing v).2 e := by
  obtain ⟨hgen, hitems⟩ := hd
  refine ⟨hgen, ?_⟩
  intro g v2 hlook
  simp only [EntityAllocator.insertIncreasing] at hlook
  by_cases hlt : e.index < a.items.length
  · rw [List.getElem?_append_left hlt] at hlook
    exact hitems g v2 hlook
  · rw [List.getElem?_append_right (Nat.le_of_not_lt hlt)] at hlook
    cases hidx : e.index - a.items.length with
    | zero =>
      rw [hidx] at hlook
      simp only [List.getElem?_cons_zero, Option.some.injEq,
        Entry.occupied.injEq] at hlook
      rw [← hlook.1]
      exact hgen
    | succ k =>
      rw [hidx] at hlook
      simp at hlook

theorem remove_none_eq {a : EntityAllocator T} {e2 : Entity}
    {a' : EntityAllocator T} (h : a.remove e2 = (none, a')) : a' = a := by
  simp only [EntityAllocator.remove] at h
  split at h
  · simp only [Prod.mk.injEq] at h; exact h.2.symm
  · split at h
    · split at h
      · simp at h
      · simp only [Prod.mk.injEq] at h; exact h.2.symm
    · simp only [Prod.mk.injEq] at h; exact h.2.symm

theorem remove_deadFor {a : EntityAllocator T} {e e2 : Entity}
    (hd : DeadFor a e) : DeadFor (a.remove e2).2 e := by
  cases hrm : a.remove e2 with
  | mk o a' =>
    cases o with
    | none => rw [remove_none_eq hrm]; exact hd
    | some v =>
      obtain ⟨hgen, hitems⟩ := hd
      obtain ⟨-, hg, hit⟩ := remove_spec hrm
      constructor
      · rw [hg]; omega
      · intro g v2 hlook
        rw [hit, List.getElem?_set] at hlook
        by_cases hix : e2.index = e.index
        · rw [if_pos hix] at hlook
          split at hlook <;> exact absurd hlook (by simp)
        · rw [if_neg hix] at hlook
          exact hitems g v2 hlook

theorem stepOp_deadFor {a : EntityAllocator T} {e : Entity}
    (hd : DeadFor a e) (op : AllocOp T) : DeadFor (stepOp a op) e := by
  cases op with
  | tryInsertOp v =>
    simp only [stepOp]
    cases h : a.tryInsert v with
    | error s => exact hd
    | ok o =>
      cases o with
      | none => exact hd
      | some r =>
        obtain ⟨e', a''⟩ := r
        exact tryInsert_deadFor hd h
  | insertOp v =>
    simp only [stepOp]
    cases h : a.insert v with
    | error s => exact hd
    | ok r =>
      obtain ⟨e', a''⟩ := r
      simp only [EntityAllocator.insert] at h
      cases h1 : a.tryInsert v with
      | error s => rw [h1] at h; simp at h
      | ok o =>
        rw [h1] at h
        cases o with
        | some r2 =>
          obtain ⟨e2, a2⟩ := r2
          simp only [Except.ok.injEq, Prod.mk.injEq] at h
          rw [← h.2]
          exact tryInsert_deadFor hd h1
        | none =>
          cases h2 : (a.reserve a.len).tryInsert v with
          | error s => rw [h2] at h; simp at h
          | ok o2 =>
            rw [h2] at h
            cases o2 with
            | none => simp at h
            | some r2 =>
              obtain ⟨e2, a2⟩ := r2
              simp only [Except.ok.injEq, Prod.mk.injEq] at h
              rw [← h.2]
              exact tryInsert_deadFor (reserve_deadFor hd a.len) h2
  | insertIncreasingOp v => exact insertIncreasing_deadFor hd v
  | removeOp e2 => exact remove_deadFor hd
  | reserveOp n => exact reserve_deadFor hd n

theorem runOps_deadFor {e : Entity} :
    ∀ (ops : List (AllocOp T)) {a : EntityAllocator T}, DeadFor a e →
      DeadFor (runOps a ops) e := by
  intro ops
  induction ops with
  | nil => exact fun hd => hd
  | cons op rest ih => exact fun hd => ih (stepOp_deadFor hd op)

theorem deadFor_after_remove {a : EntityAllocator T} {e : Entity} {v : T}
    {a' : EntityAllocator T} (hInv : InvGen a)
    (h : a.remove e = (some v, a')) : DeadFor a' e := by
  obtain ⟨hit, hgen, hitems⟩ := remove_spec h
  constructor
  · have hmem := List.getElem?_mem hit
    have hle := hInv _ hmem
    simp only [entryGenLe, decide_eq_true_eq] at hle
    omega
  · intro g v2 hlook
    rw [hitems, List.getElem?_set, if_pos rfl] at hlook
    split at hlook <;> exact absurd hlook (by simp)

end AllocatorSafety

/-- Claim C2: despawning `e` (only possible while its slot holds `e`'s exact
generation) bumps the generation counter by one; afterwards `get` with `e`'s
index and generation returns `None` in that state and in every state
reachable by further allocator operations; an entity later allocated at the
reused index carries a strictly greater (hence different) generation; and the
counter is never changed by the allocating operations (`try_insert`,
`insert`, `insert_increasing`). -/
theorem c2_generational_safety {T : Type} (a : EntityAllocator T) (e : Entity)
    (v : T) (a' : EntityAllocator T)
    (hInv : InvGen a) (hrem : a.remove e = (some v, a')) :
    a'.generation = a.generation + 1 ∧
    (∀ ops : List (AllocOp T), (runOps a' ops).get e = none) ∧
    (∀ (ops : List (AllocOp T)) (w2 : T) (e' : Entity)
       (a3 : EntityAllocator T),
      (runOps a' ops).tryInsert w2 = .ok (some (e', a3)) →
      e'.index = e.index → e.generation < e'.generation) ∧
    (∀ (b : EntityAllocator T) (x : T) (e' : Entity) (b' : EntityAllocator T),
      b.tryInsert x = .ok (some (e', b')) → b'.generation = b.generation) ∧
    (∀ (b : EntityAllocator T) (x : T) (e' : Entity) (b' : EntityAllocator T),
      b.insert x = .ok (e', b') → b'.generation = b.generation) ∧
    (∀ (b : EntityAllocator T) (x : T),
      (b.insertIncreasing x).2.generation = b.generation) := by
  have hdead := deadFor_after_remove hInv hrem
  have hdeadOps : ∀ ops : List (AllocOp T), DeadFor (runOps a' ops) e :=
    fun ops => runOps_deadFor ops hdead
  refine ⟨(remove_spec hrem).2.1,
    fun ops => deadFor_get_none (hdeadOps ops), ?_,
    fun b x e' b' h => (tryInsert_spec h).1,
    fun b x e' b' h => insert_gen h,
    fun b x => rfl⟩
  intro ops w2 e' a3 hti _
  have h1 := (tryInsert_spec hti).2.1
  have h2 := (hdeadOps ops).1
  omega

/-- Witness allocator for C2: four slots, slot `0` occupied by the entity
`(0, 0)`, generation counter `0`. -/
def exA2 : EntityAllocator Unit :=
  ⟨[.occupied 0 (), .free (some 2), .free (some 3), .free none], 0, some 1, 1⟩

/-- The C2 witness allocator after removing `(0, 0)`. -/
def exA2' : EntityAllocator Unit :=
  ⟨[.free (some 1), .free (some 2), .free (some 3), .free none], 1, some 0, 0⟩

/-- The C2 witness allocator after the slot is reused by a new entity. -/
def exA2'' : EntityAllocator Unit :=
  ⟨[.occupied 1 (), .free (some 2), .free (some 3), .free none], 1, some 1, 1⟩

/-- Witness for C2 at a concrete allocator: removing `(0, 0)` bumps the
counter to `1`; the stale handle reads `None` even after the slot is
reallocated; and the entity reusing index `0` has generation `1 > 0`. -/
theorem c2_generational_safety_witness :
    exA2'.generation = 1 ∧
    EntityAllocator.get (runOps exA2' [AllocOp.tryInsertOp ()]) ⟨0, 0⟩ =
      none ∧
    (0 : Nat) < 1 :=
  ⟨(c2_generational_safety exA2 ⟨0, 0⟩ () exA2' (by decide) (by rfl)).1,
   (c2_generational_safety exA2 ⟨0, 0⟩ () exA2' (by decide) (by rfl)).2.1
     [AllocOp.tryInsertOp ()],
   (c2_generational_safety exA2 ⟨0, 0⟩ () exA2' (by decide) (by rfl)).2.2.1
     [] () ⟨0, 1⟩ exA2'' (by rfl) rfl⟩

section BuilderContent

/-- Value of the last declared component of the given type, per the spec's
words: a later-declared component of a duplicate type replaces the earlier
one. -/
def lastValueFor : List CompVal → Tid → Option Nat
  | [], _ => none
  | c :: ds, t =>
    match lastValueFor ds t with
    | some v => some v
    | none => if c.tid.idNum = t.idNum then some c.data else none

/-- One step of collecting type identities in first-declaration order. -/
def firstTidNumsStep (acc : List Nat) (n : Nat) : List Nat :=
  if acc.any (fun x => x = n) then acc else acc ++ [n]

/-- The declared component type identities in first-declaration order,
per the spec's words: the collection keeps declared insertion order, with a
duplicate type staying at its first position. -/
def firstTidNums (ds : List CompVal) : List Nat :=
  ds.foldl (fun acc c => firstTidNumsStep acc c.tid.idNum) []

/-- Lookup by type identity in a raw component list. -/
def lookupC (l : List CompVal) (t : Tid) : Option Nat :=
  (l.find? (fun c => c.tid.idNum = t.idNum)).map (fun c => c.data)

theorem anyMap_idNum (acc : List CompVal) (n : Nat) :
    (acc.map (fun c => c.tid.idNum)).any (fun x => x = n) =
      acc.any (fun p => p.tid.idNum = n) := by
  induction acc with
  | nil => rfl
  | cons p rest ih => simp [ih]

theorem insertRaw_tidNums_of_present {acc : List CompVal} {c : CompVal}
    (h : acc.any (fun p => p.tid.idNum = c.tid.idNum) = true) :
    (trackerInsertRaw acc c).map (fun p => p.tid.idNum) =
      acc.map (fun p => p.tid.idNum) := by
  unfold trackerInsertRaw
  rw [if_pos h, List.map_map]
  refine List.map_congr_left ?_
  intro p _
  by_cases hp : p.tid.idNum = c.tid.idNum
  · simp [Function.comp, hp]
  · simp [Function.comp, hp]

theorem insertRaw_tidNums_of_absent {acc : List CompVal} {c : CompVal}
    (h : acc.any (fun p => p.tid.idNum = c.tid.idNum) = false) :
    (trackerInsertRaw acc c).map (fun p => p.tid.idNum) =
      acc.map (fun p => p.tid.idNum) ++ [c.tid.idNum] := by
  unfold trackerInsertRaw
  rw [if_neg (by simp [h])]
  simp

theorem tracker_tidNums_aux :
    ∀ (ds acc : List CompVal),
    (ds.foldl trackerInsertRaw acc).map (fun c => c.tid.idNum) =
      ds.foldl (fun a c => firstTidNumsStep a c.tid.idNum)
        (acc.map (fun c => c.tid.idNum)) := by
  intro ds
  induction ds with
  | nil => intro acc; rfl
  | cons c rest ih =>
    intro acc
    rw [List.foldl_cons, List.foldl_cons, ih]
    congr 1
    cases hpres : acc.any (fun p => p.tid.idNum = c.tid.idNum) with
    | true =>
      rw [insertRaw_tidNums_of_present hpres]
      unfold firstTidNumsStep
      rw [if_pos (by rw [anyMap_idNum]; exact hpres)]
    | false =>
      rw [insertRaw_tidNums_of_absent hpres]
      unfold firstTidNumsStep
      rw [if_neg (by rw [anyMap_idNum, hpres]; simp)]

/-- The tracked component list keeps type identities in first-declaration
order. -/
theorem tracker_tidNums (ds : List CompVal) :
    (buildTracker ds).map (fun c => c.tid.idNum) = firstTidNums ds :=
  tracker_tidNums_aux ds []

theorem tracker_tidNums_nodup_aux :
    ∀ (ds acc : List CompVal),
    ((acc.map (fun c => c.tid.idNum)).Nodup) →
    ((ds.foldl trackerInsertRaw acc).map (fun c => c.tid.idNum)).Nodup := by
  intro ds
  induction ds with
  | nil => intro acc h; exact h
  | cons c rest ih =>
    intro acc h
    rw [List.foldl_cons]
    refine ih _ ?_
    cases hpres : acc.any (fun p => p.tid.idNum = c.tid.idNum) with
    | true => rw [insertRaw_tidNums_of_present hpres]; exact h
    | false =>
      rw [insertRaw_tidNums_of_absent hpres]
      rw [List.nodup_append]
      refine ⟨h, List.nodup_singleton _, ?_⟩
      intro x hx hx2
      simp only [List.mem_singleton] at hx2
      subst hx2
      obtain ⟨p, hp, hpe⟩ := List.mem_map.mp hx
      have : acc.any (fun p => p.tid.idNum = c.tid.idNum) = true := by
        rw [List.any_eq_true]
        exact ⟨p, hp, by simp [hpe]⟩
      rw [hpres] at this
      exact Bool.noConfusion this

/-- The tracked component list never holds two components of one type. -/
theorem tracker_tidNums_nodup (ds : List CompVal) :
    ((buildTracker ds).map (fun c => c.tid.idNum)).Nodup :=
  tracker_tidNums_nodup_aux ds [] (by simp)

theorem lookup_map_replace_ne (rest : List CompVal) (c : CompVal) (t : Tid)
    (hct : ¬ c.tid.idNum = t.idNum) :
    lookupC (rest.map (fun p => if p.tid.idNum = c.tid.idNum then c else p))
      t = lookupC rest t := by
  induction rest with
  | nil => rfl
  | cons p rest ih =>
    simp only [List.map_cons]
    unfold lookupC
    rw [List.find?_cons, List.find?_cons]
    by_cases hp : p.tid.idNum = c.tid.idNum
    · rw [if_pos hp]
      have h1 : ¬ p.tid.idNum = t.idNum := by rw [hp]; exact hct
      simp only [decide_eq_false hct, decide_eq_false h1]
      exact ih
    · rw [if_neg hp]
      by_cases h1 : p.tid.idNum = t.idNum
      · simp [h1]
      · simp only [decide_eq_false h1]
        exact ih

theorem lookup_map_replace_eq (acc : List CompVal) (c : CompVal) (t : Tid)
    (hct : c.tid.idNum = t.idNum)
    (hpres : acc.any (fun p => p.tid.idNum = c.tid.idNum) = true) :
    lookupC (acc.map (fun p => if p.tid.idNum = c.tid.idNum then c else p))
      t = some c.data := by
  induction acc with
  | nil => simp at hpres
  | cons p rest ih =>
    simp only [List.map_cons]
    unfold lookupC
    rw [List.find?_cons]
    by_cases hp : p.tid.idNum = c.tid.idNum
    · rw [if_pos hp]
      simp [hct]
    · rw [if_neg hp]
      have h1 : ¬ p.tid.idNum = t.idNum := by
        rw [← hct]; exact hp
      simp only [decide_eq_false h1]
      refine ih ?_
      simp only [List.any_cons, decide_eq_false hp, Bool.false_or] at hpres
      exact hpres

theorem insertRaw_lookup (acc : List CompVal) (c : CompVal) (t : Tid) :
    lookupC (trackerInsertRaw acc c) t =
      if c.tid.idNum = t.idNum then some c.data else lookupC acc t := by
  unfold trackerInsertRaw
  cases hpres : acc.any (fun p => p.tid.idNum = c.tid.idNum) with
  | true =>
    rw [if_pos rfl]
    by_cases hct : c.tid.idNum = t.idNum
    · rw [if_pos hct]
      exact lookup_map_replace_eq acc c t hct hpres
    · rw [if_neg hct]
      exact lookup_map_replace_ne acc c t hct
  | false =>
    rw [if_neg (by simp)]
    unfold lookupC
    rw [List.find?_append]
    by_cases hct : c.tid.idNum = t.idNum
    · have hnone : acc.find? (fun x => decide (x.tid.idNum = t.idNum)) =
          none := by
        rw [List.find?_eq_none]
        intro x hx
        simp only [decide_eq_true_eq]
        intro hxe
        have hk : acc.any (fun p => p.tid.idNum = c.tid.idNum) = true := by
          rw [List.any_eq_true]
          exact ⟨x, hx, by simp [hxe, hct]⟩
        rw [hpres] at hk
        exact Bool.noConfusion hk
      rw [hnone]
      simp [hct]
    · have h1 : List.find? (fun x => decide (x.tid.idNum = t.idNum)) [c] =
          none := by simp [hct]
      rw [h1]
      simp [hct, lookupC]

theorem trackerFold_lookup :
    ∀ (ds acc : List CompVal) (t : Tid),
    lookupC (ds.foldl trackerInsertRaw acc) t =
      match lastValueFor ds t with
      | some v => some v
      | none => lookupC acc t := by
  intro ds
  induction ds with
  | nil => intro acc t; rfl
  | cons c rest ih =>
    intro acc t
    rw [List.foldl_cons, ih, insertRaw_lookup]
    cases hl : lastValueFor rest t with
    | some v => simp [lastValueFor, hl]
    | none =>
      by_cases hct : c.tid.idNum = t.idNum
      · simp [lastValueFor, hl, hct]
      · simp [lastValueFor, hl, hct]

/-- The tracked component list holds, for each type, the value of the last
declared component of that type. -/
theorem tracker_lookup (ds : List CompVal) (t : Tid) :
    lookupC (buildTracker ds) t = lastValueFor ds t := by
  unfold buildTracker
  rw [trackerFold_lookup]
  cases lastValueFor ds t <;> rfl

theorem indexMapInsert_absent {acc : List (Tid × Nat)} {k : Tid} {v : Nat}
    (h : acc.any (fun p => p.1.idNum = k.idNum) = false) :
    indexMapInsert acc k v = acc ++ [(k, v)] := by
  unfold indexMapInsert
  rw [if_neg (by simp [h])]

theorem newFold_eq :
    ∀ (l : List CompVal) (acc : List (Tid × Nat)),
    (∀ c ∈ l, acc.any (fun p => p.1.idNum = c.tid.idNum) = false) →
    ((l.map (fun c => c.tid.idNum)).Nodup) →
    l.foldl (fun m c => indexMapInsert m c.tid c.data) acc =
      acc ++ l.map (fun c => (c.tid, c.data)) := by
  intro l
  induction l with
  | nil => intro acc _ _; simp
  | cons c rest ih =>
    intro acc hdisj hnd
    rw [List.foldl_cons]
    have hpres := hdisj c (List.mem_cons_self c rest)
    rw [indexMapInsert_absent hpres]
    rw [ih]
    · simp
    · intro c2 hc2
      have h1 := hdisj c2 (List.mem_cons_of_mem _ hc2)
      have h2 : c2.tid.idNum ≠ c.tid.idNum := by
        simp only [List.map_cons, List.nodup_cons] at hnd
        intro he
        exact hnd.1 (by rw [← he]; exact List.mem_map_of_mem _ hc2)
      rw [List.any_append]
      rw [h1]
      simp [Ne.symm h2]
    · simp only [List.map_cons, List.nodup_cons] at hnd
      exact hnd.2

/-- For a component list without duplicate types, `EntityAssoc::new` is just
the `(type id, value)` pairing in list order. -/
theorem new_eq_of_nodup (l : List CompVal)
    (h : (l.map (fun c => c.tid.idNum)).Nodup) :
    EntityAssoc.new l = ⟨l.map (fun c => (c.tid, c.data))⟩ := by
  unfold EntityAssoc.new
  rw [newFold_eq l [] (by simp) h]
  simp

/-- The built collection looks up, for each type, the last declared value of
that type (duplicates replace in place). -/
theorem new_lookup (ds : List CompVal) (t : Tid) :
    (EntityAssoc.new (buildTracker ds)).lookup t = lastValueFor ds t := by
  rw [new_eq_of_nodup _ (tracker_tidNums_nodup ds)]
  unfold EntityAssoc.lookup
  simp only [List.find?_map, Option.map_map]
  exact tracker_lookup ds t

/-- The built collection keeps the declared first-occurrence type order. -/
theorem new_keys (ds : List CompVal) :
    (EntityAssoc.new (buildTracker ds)).components.map (fun p => p.1.idNum) =
      firstTidNums ds := by
  rw [new_eq_of_nodup _ (tracker_tidNums_nodup ds)]
  simp only [List.map_map]
  exact tracker_tidNums ds

end BuilderContent

section FinalizeSpawn

/-- Whether a lazy update targets the given entity. -/
def mentionsE (e : Entity) : LazyUpdate → Bool
  | .finishEntity _ e' => e' == e
  | .despawnEntity e' => e' == e

theorem find?_append_single_ne {α : Type} (l : List (Entity × α))
    (e e' : Entity) (x : α) (h : ¬ e' = e) :
    (l ++ [(e', x)]).find? (fun p => p.1 = e) =
      l.find? (fun p => p.1 = e) := by
  rw [List.find?_append]
  have h1 : List.find? (fun p => decide (p.1 = e)) [(e', x)] = none := by
    simp [h]
  rw [h1]
  cases l.find? (fun p => decide (p.1 = e)) <;> rfl

theorem find?_append_single_self {α : Type} (l : List (Entity × α))
    (e : Entity) (x : α) (h : l.find? (fun p => p.1 = e) = none) :
    (l ++ [(e, x)]).find? (fun p => p.1 = e) = some (e, x) := by
  rw [List.find?_append, h]
  simp

theorem find?_filter_ne {α : Type} (l : List (Entity × α)) (e e' : Entity)
    (h : ¬ e = e') :
    (l.filter (fun p => p.1 ≠ e')).find? (fun p => p.1 = e) =
      l.find? (fun p => p.1 = e) := by
  induction l with
  | nil => rfl
  | cons p rest ih =>
    rw [List.filter_cons, List.find?_cons]
    by_cases hp : p.1 = e
    · have hk : p.1 ≠ e' := by rw [hp]; exact h
      rw [if_pos (by simp [hk])]
      rw [List.find?_cons]
      simp [hp]
    · by_cases hq : p.1 = e'
      · rw [if_neg (by simp [hq])]
        simp only [decide_eq_false hp]
        exact ih
      · rw [if_pos (by simp [hq])]
        rw [List.find?_cons]
        simp only [decide_eq_false hp]
        exact ih

theorem despawn_ok_inv {st : EntityStorage} {e' : Entity}
    {prev : EntityAssoc} {st' : EntityStorage}
    (h : st.despawn e' = .ok (prev, st')) :
    (∃ v, st.allocator.remove e' = (some v, st'.allocator)) ∧
    st'.assocs = st.assocs.filter (fun p => p.1 ≠ e') := by
  simp only [EntityStorage.despawn] at h
  cases hrm : st.allocator.remove e' with
  | mk o a2 =>
    simp only [hrm] at h
    cases o with
    | none => simp at h
    | some v =>
      cases hfa : st.findAssoc e' with
      | none => simp [hfa] at h
      | some assoc =>
        simp only [hfa] at h
        simp only [Except.ok.injEq, Prod.mk.injEq] at h
        refine ⟨⟨v, ?_⟩, ?_⟩
        · rw [← h.2]
        · rw [← h.2]

theorem entity_eq_of_parts {e e' : Entity} (hi : e'.index = e.index)
    (hg : e'.generation = e.generation) : e' = e := by
  cases e; cases e'
  simp only [Entity.mk.injEq] at hi hg ⊢
  exact ⟨hi, hg⟩

theorem get_preserved_remove {T : Type} {a : EntityAllocator T}
    {e e' : Entity} (hne : ¬ e' = e) {v : T} {a' : EntityAllocator T}
    (hrm : a.remove e' = (some v, a')) : a'.get e = a.get e := by
  obtain ⟨hit, -, hitems⟩ := remove_spec hrm
  unfold EntityAllocator.get
  rw [hitems, List.getElem?_set]
  by_cases hix : e'.index = e.index
  · rw [if_pos hix]
    rw [hix] at hit
    rw [hit]
    have hgne : ¬ e'.generation = e.generation := by
      intro hg
      exact hne (entity_eq_of_parts hix hg)
    by_cases hlt : e'.index < a.items.length
    · rw [if_pos hlt]
      simp [hgne]
    · rw [if_neg hlt]
      simp [hgne]
  · rw [if_neg hix]

theorem applyUpdate_preserves_e {w w' : World} {u : LazyUpdate}
    {evs : List Ev} {e : Entity}
    (hu : mentionsE e u = false) (h : applyUpdate w u = .ok (w', evs)) :
    w'.entities.findAssoc e = w.entities.findAssoc e ∧
    w'.entities.allocator.get e = w.entities.allocator.get e := by
  cases u with
  | finishEntity comps e' =>
    have hne : ¬ e' = e := by simpa [mentionsE] using hu
    simp only [applyUpdate] at h
    cases hfs : w.entities.finishSpawn e' (EntityAssoc.new comps) with
    | error s => simp [hfs] at h
    | ok st' =>
      simp only [hfs] at h
      simp only [Except.ok.injEq, Prod.mk.injEq] at h
      have hinv : st'.assocs =
          w.entities.assocs ++ [(e', EntityAssoc.new comps)] ∧
          st'.allocator = w.entities.allocator := by
        simp only [EntityStorage.finishSpawn] at hfs
        cases hfa : w.entities.findAssoc e' with
        | some a0 => simp [hfa] at hfs
        | none =>
          simp only [hfa] at hfs
          simp only [Except.ok.injEq] at hfs
          rw [← hfs]
          exact ⟨rfl, rfl⟩
      rw [← h.1]
      constructor
      · show EntityStorage.findAssoc st' e = _
        unfold EntityStorage.findAssoc
        rw [hinv.1, find?_append_single_ne _ _ _ _ hne]
      · rw [hinv.2]
  | despawnEntity e' =>
    have hne : ¬ e' = e := by simpa [mentionsE] using hu
    simp only [applyUpdate] at h
    cases hl : w.entities.liveness e' with
    | error s => simp [hl] at h
    | ok lv =>
      simp only [hl] at h
      cases lv with
      | alive =>
        cases hd : w.entities.despawn e' with
        | error s => simp [hd] at h
        | ok pr =>
          obtain ⟨prev, st'⟩ := pr
          simp only [hd] at h
          simp only [Except.ok.injEq, Prod.mk.injEq] at h
          obtain ⟨⟨v, hrm⟩, hassocs⟩ := despawn_ok_inv hd
          rw [← h.1]
          constructor
          · show EntityStorage.findAssoc st' e = _
            unfold EntityStorage.findAssoc
            rw [hassocs, find?_filter_ne _ _ _ (fun he => hne he.symm)]
          · exact get_preserved_remove hne hrm
      | reservedOnly =>
        simp only [Except.ok.injEq, Prod.mk.injEq] at h
        rw [← h.1]
        exact ⟨rfl, rfl⟩
      | dead =>
        simp only [Except.ok.injEq, Prod.mk.injEq] at h
        rw [← h.1]
        exact ⟨rfl, rfl⟩

theorem applyAll_preserves_e {e : Entity} :
    ∀ {q : List LazyUpdate} {w w' : World} {evs : List Ev},
    (∀ u ∈ q, mentionsE e u = false) →
    applyAll w q = .ok (w', evs) →
    w'.entities.findAssoc e = w.entities.findAssoc e ∧
    w'.entities.allocator.get e = w.entities.allocator.get e := by
  intro q
  induction q with
  | nil =>
    intro w w' evs _ h
    simp only [applyAll, Except.ok.injEq, Prod.mk.injEq] at h
    rw [← h.1]
    exact ⟨rfl, rfl⟩
  | cons u rest ih =>
    intro w w' evs hq h
    simp only [applyAll] at h
    cases h1 : applyUpdate w u with
    | error s => simp [h1] at h
    | ok pr =>
      obtain ⟨w1, evs1⟩ := pr
      simp only [h1] at h
      cases h2 : applyAll w1 rest with
      | error s => simp [h2] at h
      | ok pr2 =>
        obtain ⟨w2, evs2⟩ := pr2
        simp only [h2] at h
        simp only [Except.ok.injEq, Prod.mk.injEq] at h
        have p1 := applyUpdate_preserves_e (hq u (List.mem_cons_self u rest)) h1
        have p2 := ih (fun u2 hu2 => hq u2 (List.mem_cons_of_mem _ hu2)) h2
        rw [← h.1]
        exact ⟨p2.1.trans p1.1, p2.2.trans p1.2⟩

theorem applyAll_append :
    ∀ {l1 l2 : List LazyUpdate} {w w' : World} {evs : List Ev},
    applyAll w (l1 ++ l2) = .ok (w', evs) →
    ∃ wm evs1 evs2, applyAll w l1 = .ok (wm, evs1) ∧
      applyAll wm l2 = .ok (w', evs2) ∧ evs = evs1 ++ evs2 := by
  intro l1
  induction l1 with
  | nil =>
    intro l2 w w' evs h
    exact ⟨w, [], evs, rfl, h, rfl⟩
  | cons u rest ih =>
    intro l2 w w' evs h
    rw [List.cons_append] at h
    simp only [applyAll] at h
    cases h1 : applyUpdate w u with
    | error s => simp [h1] at h
    | ok pr =>
      obtain ⟨w1, evs1⟩ := pr
      simp only [h1] at h
      cases h2 : applyAll w1 (rest ++ l2) with
      | error s => simp [h2] at h
      | ok pr2 =>
        obtain ⟨w2, evsR⟩ := pr2
        simp only [h2] at h
        simp only [Except.ok.injEq, Prod.mk.injEq] at h
        obtain ⟨wm, a, b, hA, hB, hE⟩ := ih h2
        refine ⟨wm, evs1 ++ a, b, ?_, ?_, ?_⟩
        · simp only [applyAll, h1, hA]
        · rw [← h.1]; exact hB
        · rw [← h.2, hE]; simp

end FinalizeSpawn

/-- Claim C7: a handle reserved by a lazy spawn builder (slot present in the
allocator, no component data yet) whose `FinishEntity` update sits in the
queue — with no other queued update targeting that handle — refers, once
`finalize` completes without error, to a fully alive entity whose component
collection is exactly the builder's declared components: each type maps to
the value of its last declaration (a later duplicate replaces the earlier
one) and the collection keeps first-declaration order. -/
theorem c7_lazy_spawn_invariant (w : World) (e : Entity)
    (declared : List CompVal) (q1 q2 : List LazyUpdate)
    (w' : World) (evs : List Ev)
    (hAlloc : w.entities.allocator.get e = some ())
    (hNoAssoc : w.entities.findAssoc e = none)
    (hQueue : w.queue =
      q1 ++ LazyUpdate.finishEntity (buildTracker declared) e :: q2)
    (hOther : ∀ u ∈ q1 ++ q2, mentionsE e u = false)
    (hFin : w.finalize = .ok (w', evs)) :
    w'.entities.liveness e = .ok .alive ∧
    w'.entities.findAssoc e = some (EntityAssoc.new (buildTracker declared)) ∧
    (∀ t : Tid, (EntityAssoc.new (buildTracker declared)).lookup t =
      lastValueFor declared t) ∧
    (EntityAssoc.new (buildTracker declared)).components.map
      (fun p => p.1.idNum) = firstTidNums declared := by
  have hO1 : ∀ u ∈ q1, mentionsE e u = false :=
    fun u hu => hOther u (List.mem_append_left _ hu)
  have hO2 : ∀ u ∈ q2, mentionsE e u = false :=
    fun u hu => hOther u (List.mem_append_right _ hu)
  unfold World.finalize at hFin
  rw [hQueue] at hFin
  obtain ⟨wm, evs1, evsR, hA1, hA2, -⟩ := applyAll_append hFin
  have hP1 := applyAll_preserves_e hO1 hA1
  have hFAm : wm.entities.findAssoc e = none := by
    rw [hP1.1]; exact hNoAssoc
  have hGm : wm.entities.allocator.get e = some () := by
    rw [hP1.2]; exact hAlloc
  simp only [applyAll] at hA2
  cases h1 : applyUpdate wm
      (LazyUpdate.finishEntity (buildTracker declared) e) with
  | error s => simp [h1] at hA2
  | ok pr =>
    obtain ⟨w2, evs2⟩ := pr
    simp only [h1] at hA2
    cases h2 : applyAll w2 q2 with
    | error s => simp [h2] at hA2
    | ok pr2 =>
      obtain ⟨w3, evs3⟩ := pr2
      simp only [h2] at hA2
      simp only [Except.ok.injEq, Prod.mk.injEq] at hA2
      have hinv : w2.entities.assocs = wm.entities.assocs ++
          [(e, EntityAssoc.new (buildTracker declared))] ∧
          w2.entities.allocator = wm.entities.allocator := by
        simp only [applyUpdate] at h1
        cases hfs : wm.entities.finishSpawn e
            (EntityAssoc.new (buildTracker declared)) with
        | error s => simp [hfs] at h1
        | ok st2 =>
          simp only [hfs] at h1
          simp only [Except.ok.injEq, Prod.mk.injEq] at h1
          have hst2 : st2.assocs = wm.entities.assocs ++
              [(e, EntityAssoc.new (buildTracker declared))] ∧
              st2.allocator = wm.entities.allocator := by
            simp only [EntityStorage.finishSpawn, hFAm] at hfs
            simp only [Except.ok.injEq] at hfs
            rw [← hfs]
            exact ⟨rfl, rfl⟩
          rw [← h1.1]
          exact hst2
      have hfnone : wm.entities.assocs.find? (fun p => p.1 = e) = none := by
        unfold EntityStorage.findAssoc at hFAm
        cases hf : wm.entities.assocs.find? (fun p => p.1 = e) with
        | none => rfl
        | some p => rw [hf] at hFAm; simp at hFAm
      have hFA2 : w2.entities.findAssoc e =
          some (EntityAssoc.new (buildTracker declared)) := by
        unfold EntityStorage.findAssoc
        rw [hinv.1, find?_append_single_self _ _ _ hfnone]
        rfl
      have hG2 : w2.entities.allocator.get e = some () := by
        rw [hinv.2]; exact hGm
      have hP2 := applyAll_preserves_e hO2 h2
      have hFA3 : w3.entities.findAssoc e =
          some (EntityAssoc.new (buildTracker declared)) := by
        rw [hP2.1]; exact hFA2
      have hG3 : w3.entities.allocator.get e = some () := by
        rw [hP2.2]; exact hG2
      rw [← hA2.1]
      refine ⟨?_, hFA3, fun t => new_lookup declared t, new_keys declared⟩
      simp [EntityStorage.liveness, hFA3, hG3]

/-- Witness world for C7: the reserved handle `(0, 0)` sits in the allocator
with no data; the queue holds its `FinishEntity` update, declaring `A := 5`,
`B := 6`, then a duplicate `A := 9`. -/
def exW7 : World :=
  ⟨⟨⟨[.occupied 0 ()], 0, none, 1⟩, []⟩, [], ⟨[]⟩,
   [LazyUpdate.finishEntity
     (buildTracker [⟨⟨1, "A"⟩, 5⟩, ⟨⟨2, "B"⟩, 6⟩, ⟨⟨1, "A"⟩, 9⟩]) ⟨0, 0⟩]⟩

/-- The C7 witness world after `finalize`. -/
def exW7' : World :=
  ⟨⟨⟨[.occupied 0 ()], 0, none, 1⟩,
    [(⟨0, 0⟩, ⟨[(⟨1, "A"⟩, 9), (⟨2, "B"⟩, 6)]⟩)]⟩, [], ⟨[]⟩, []⟩

/-- Witness for C7 at a concrete world: after `finalize` the reserved handle
is alive with collection `A := 9, B := 6` — the duplicate `A` declaration
replaced the earlier value in place, keeping first-declaration order. -/
theorem c7_lazy_spawn_invariant_witness :
    exW7'.entities.liveness ⟨0, 0⟩ = .ok .alive ∧
    exW7'.entities.findAssoc ⟨0, 0⟩ =
      some ⟨[(⟨1, "A"⟩, 9), (⟨2, "B"⟩, 6)]⟩ ∧
    EntityAssoc.lookup ⟨[(⟨1, "A"⟩, 9), (⟨2, "B"⟩, 6)]⟩ ⟨1, "A"⟩ = some 9 ∧
    ([(⟨1, "A"⟩, 9), (⟨2, "B"⟩, 6)] : List (Tid × Nat)).map
      (fun p => p.1.idNum) = [1, 2] :=
  (c7_lazy_spawn_invariant exW7 ⟨0, 0⟩
    [⟨⟨1, "A"⟩, 5⟩, ⟨⟨2, "B"⟩, 6⟩, ⟨⟨1, "A"⟩, 9⟩] [] [] exW7' []
    (by rfl) (by rfl) (by rfl) (by simp) (by rfl)).imp id
    (fun h => h.imp id (fun h2 => ⟨h2.1 ⟨1, "A"⟩, h2.2⟩))

end Palkia
